import Mathlib

/-!
Verification development for the ICRC-37+ NFT canister
(`src/icrc37plus_token_backend/src/lib.rs`).

The canister's thread-local state is embedded as an explicit `State`
structure; Rust `HashMap`s are embedded as association lists (`lookup`,
`insertKV`, `removeKV`, `modifyKV` mirror `get`, `insert`, `remove` and
`get_mut`), kept in iteration order so that iteration-order-sensitive
queries (`icrc7_tokens`) are faithful.  Principals are opaque identities,
modelled as naturals; timestamps are nanosecond naturals supplied by the
environment (`time()` becomes a `now` parameter, `caller()` a `caller`
parameter, `ic_cdk::api::id()` a `self_canister` parameter).  Candid
`Nat` prices are unbounded naturals, as in the source.
-/

set_option maxHeartbeats 1000000

namespace ICRC37Plus

/-- Principals are opaque identities supplied by the environment. -/
abbrev Principal := Nat

/-- Stand-in for `Principal::anonymous()` (only used on a dead branch of
`icrc37_approve_tokens`, as in the source). -/
def anonymousPrincipal : Principal := 0

inductive AdminType where
  | System
  | Functional
  deriving DecidableEq, Repr

/-- Source `Value` (constructors `Nat`, `Int`, `Text`, `Blob`; renamed here
to avoid clashes with the ambient `Nat`/`Int` types). -/
inductive Value where
  | natV (n : Nat)
  | intV (i : Int)
  | textV (s : String)
  | blobV (b : List Nat)
  deriving DecidableEq, Repr

structure BundlePrice where
  quantity : Nat
  price : Nat
  deriving DecidableEq, Repr

structure MintSchedule where
  name : String
  bundle_prices : List BundlePrice
  start_time : Option Nat
  end_time : Option Nat
  active : Bool
  whitelist_only : Bool
  deriving DecidableEq, Repr

structure CollectionDetails where
  name : String
  symbol : String
  description : String
  max_supply : Option Nat
  base_url : String
  logo : Option String
  pricing_enabled : Bool
  mint_schedules : List MintSchedule
  deriving DecidableEq, Repr

structure TransferRecord where
  from_ : Principal
  to_ : Principal
  timestamp : Nat
  deriving DecidableEq, Repr

structure NFTMetadata where
  name : String
  description : String
  image_url : String
  content_url : Option String
  content_type : Option String
  properties : Option Value
  is_layered : Bool
  svg_id : Option Nat
  layers : Option (List String)
  deriving DecidableEq, Repr

structure NFT where
  token_id : Nat
  owner : Principal
  metadata : NFTMetadata
  created_at : Nat
  transfer_history : List TransferRecord
  deriving DecidableEq, Repr

structure Account where
  owner : Principal
  subaccount : Option (List Nat)
  deriving DecidableEq, Repr

structure TransferArgs where
  from_subaccount : Option (List Nat)
  to_ : Account
  token_id : Nat
  memo : Option (List Nat)
  created_at_time : Option Nat
  deriving DecidableEq, Repr

inductive TransferError where
  | BadFee (expected_fee : Nat)
  | BadBurn (min_burn_amount : Nat)
  | InsufficientFunds (balance : Nat)
  | TooOld
  | CreatedInFuture (ledger_time : Nat)
  | Duplicate (duplicate_of : Nat)
  | GenericError (error_code : Nat) (message : String)
  | TemporarilyUnavailable
  | Unauthorized
  | NotFound
  deriving DecidableEq, Repr

structure Transaction where
  kind : String
  timestamp : Nat
  token_id : Nat
  from_ : Principal
  to_ : Principal
  memo : Option (List Nat)
  operation : String
  transaction_id : Nat
  deriving DecidableEq, Repr

structure ApprovalInfo where
  spender : Principal
  token_id : Nat
  expires_at : Option Nat
  created_at : Nat
  deriving DecidableEq, Repr

structure ApprovalArgs where
  from_subaccount : Option (List Nat)
  spender : Account
  token_id : Nat
  expires_at : Option Nat
  memo : Option (List Nat)
  created_at_time : Option Nat
  deriving DecidableEq, Repr

structure ApprovalCollectionArgs where
  from_subaccount : Option (List Nat)
  spender : Account
  expires_at : Option Nat
  memo : Option (List Nat)
  created_at_time : Option Nat
  deriving DecidableEq, Repr

structure TransferFromArgs where
  spender_subaccount : Option (List Nat)
  from_ : Account
  to_ : Account
  token_id : Nat
  memo : Option (List Nat)
  created_at_time : Option Nat
  deriving DecidableEq, Repr

structure UpdateCollectionDetailsArgs where
  name : Option String
  symbol : Option String
  description : Option String
  max_supply : Option Nat
  base_url : Option String
  logo : Option String
  pricing_enabled : Option Bool
  mint_schedules : Option (List MintSchedule)
  deriving DecidableEq, Repr

structure UpdateMintScheduleArgs where
  name : String
  bundle_prices : List BundlePrice
  start_time : Option Nat
  end_time : Option Nat
  active : Option Bool
  whitelist_only : Option Bool
  deriving DecidableEq, Repr

structure MintArgs where
  asset_id : String
  deriving DecidableEq, Repr

structure MintBundleArgs where
  quantity : Nat
  asset_ids : List String
  deriving DecidableEq, Repr

instance {ε α : Type} [DecidableEq ε] [DecidableEq α] : DecidableEq (Except ε α) := fun a b =>
  match a, b with
  | .error x, .error y =>
    if h : x = y then .isTrue (by rw [h]) else .isFalse (by intro hc; cases hc; exact h rfl)
  | .error _, .ok _ => .isFalse (by intro hc; cases hc)
  | .ok _, .error _ => .isFalse (by intro hc; cases hc)
  | .ok x, .ok y =>
    if h : x = y then .isTrue (by rw [h]) else .isFalse (by intro hc; cases hc; exact h rfl)

/-! ## Association lists: the embedding of Rust `HashMap` -/

/-- `HashMap::get` on an association list (first matching key). -/
def lookup {κ α : Type} [DecidableEq κ] : List (κ × α) → κ → Option α
  | [], _ => none
  | (k', v) :: rest, k => if k' = k then some v else lookup rest k

/-- `HashMap::insert`: replace the entry in place if the key is present,
otherwise add a new entry. -/
def insertKV {κ α : Type} [DecidableEq κ] : List (κ × α) → κ → α → List (κ × α)
  | [], k, v => [(k, v)]
  | (k', v') :: rest, k, v =>
    if k' = k then (k, v) :: rest else (k', v') :: insertKV rest k v

/-- `HashMap::remove`: drop the entry with the given key, if present
(keys are unique in every map the canister builds, so dropping every
match coincides with dropping the single entry). -/
def removeKV {κ α : Type} [DecidableEq κ] : List (κ × α) → κ → List (κ × α)
  | [], _ => []
  | (k', v') :: rest, k =>
    if k' = k then removeKV rest k else (k', v') :: removeKV rest k

/-- `HashMap::get_mut` followed by an in-place mutation of the value
(a no-op when the key is absent). -/
def modifyKV {κ α : Type} [DecidableEq κ] : List (κ × α) → κ → (α → α) → List (κ × α)
  | [], _, _ => []
  | (k', v') :: rest, k, f =>
    if k' = k then (k', f v') :: rest else (k', v') :: modifyKV rest k f

@[simp]
theorem lookup_nil {κ α : Type} [DecidableEq κ] (k : κ) :
    lookup ([] : List (κ × α)) k = none := rfl

theorem lookup_insertKV {κ α : Type} [DecidableEq κ] (m : List (κ × α)) (k j : κ) (v : α) :
    lookup (insertKV m k v) j = if j = k then some v else lookup m j := by
  induction m with
  | nil =>
    by_cases h : j = k
    · subst h; simp [insertKV, lookup]
    · have h2 : ¬ (k = j) := fun hh => h (Eq.symm hh)
      simp [insertKV, lookup, h, h2]
  | cons p rest ih =>
    obtain ⟨k', v'⟩ := p
    by_cases hk : k' = k
    · subst hk
      by_cases h : j = k'
      · subst h; simp [insertKV, lookup]
      · have h2 : ¬ (k' = j) := fun hh => h (Eq.symm hh)
        simp [insertKV, lookup, h, h2]
    · by_cases hj : k' = j
      · subst hj
        simp [insertKV, lookup, hk]
      · simp [insertKV, lookup, hk, hj, ih]

theorem lookup_modifyKV {κ α : Type} [DecidableEq κ] (m : List (κ × α)) (k j : κ)
    (f : α → α) :
    lookup (modifyKV m k f) j = if j = k then (lookup m j).map f else lookup m j := by
  induction m with
  | nil => simp [modifyKV, lookup]
  | cons p rest ih =>
    obtain ⟨k', v'⟩ := p
    by_cases hk : k' = k
    · subst hk
      by_cases hj : j = k'
      · subst hj; simp [modifyKV, lookup]
      · have h2 : ¬ (k' = j) := fun hh => hj (Eq.symm hh)
        simp [modifyKV, lookup, h2, hj]
    · by_cases hj : k' = j
      · subst hj
        simp [modifyKV, lookup, hk]
      · simp [modifyKV, lookup, hk, hj, ih]

theorem lookup_removeKV {κ α : Type} [DecidableEq κ] (m : List (κ × α)) (k j : κ) :
    lookup (removeKV m k) j = if j = k then none else lookup m j := by
  induction m with
  | nil => simp [removeKV, lookup]
  | cons p rest ih =>
    obtain ⟨k', v'⟩ := p
    by_cases hk : k' = k
    · subst hk
      by_cases hj : j = k'
      · subst hj; simp [removeKV, lookup, ih]
      · have h2 : ¬ (k' = j) := fun hh => hj (Eq.symm hh)
        simp [removeKV, lookup, h2, hj, ih]
    · by_cases hj : k' = j
      · subst hj
        simp [removeKV, lookup, hk]
      · simp [removeKV, lookup, hk, hj, ih]

/-! ## Collection constants and initial state -/

def MAX_QUERY_BATCH_SIZE : Nat := 100
def MAX_UPDATE_BATCH_SIZE : Nat := 20
def DEFAULT_TAKE_VALUE : Nat := 10
def MAX_TAKE_VALUE : Nat := 100

/-- The entire mutable canister state (the `thread_local!` block).  The
opaque binary asset store (`ASSETS`, `MINTED_ASSETS`) and the archive
pointer list are external collaborators per the specification's scope and
are not touched by any modelled operation, so they are omitted here. -/
structure State where
  token_id_counter : Nat
  nfts : List (Nat × NFT)
  tokens : List (Nat × Principal)
  token_assets : List (Nat × String)
  owner_tokens : List (Principal × List Nat)
  whitelist : List (Principal × Bool)
  admins : List (Principal × AdminType)
  nft_counter : Nat
  collection_details : CollectionDetails
  token_approvals : List (Nat × List (Principal × ApprovalInfo))
  collection_approvals : List (Principal × List (Principal × ApprovalInfo))
  transactions : List Transaction
  transaction_id_counter : Nat
  deriving DecidableEq, Repr

/-- The `COLLECTION_DETAILS` initializer from the `thread_local!` block. -/
def defaultCollectionDetails : CollectionDetails :=
  { name := "ICRC-37+ NFT"
    symbol := "ICRC37+"
    description := "A fully compliant ICRC-37+ NFT collection"
    max_supply := some 1000
    base_url := "https://example.com/api"
    logo := none
    pricing_enabled := false
    mint_schedules :=
      [ { name := "Standard", bundle_prices := [], start_time := none, end_time := none,
          active := false, whitelist_only := false },
        { name := "Whitelist", bundle_prices := [], start_time := none, end_time := none,
          active := false, whitelist_only := true } ] }

/-- The state right after canister installation: the `thread_local!`
initializers followed by `init()`, which registers the deploying caller as
the first system admin and whitelists it. -/
def initState (deployer : Principal) : State :=
  { token_id_counter := 0
    nfts := []
    tokens := []
    token_assets := []
    owner_tokens := []
    whitelist := [(deployer, true)]
    admins := [(deployer, AdminType.System)]
    nft_counter := 0
    collection_details := defaultCollectionDetails
    token_approvals := []
    collection_approvals := []
    transactions := []
    transaction_id_counter := 0 }

/-! ## Query surface -/

def icrc7_total_supply (s : State) : Nat := s.nfts.length

def get_nft (s : State) (token_id : Nat) : Option NFT := lookup s.nfts token_id

def icrc7_owner_of (s : State) (token_ids : List Nat) : List (Option Account) :=
  token_ids.map (fun token_id =>
    (lookup s.nfts token_id).map (fun nft => { owner := nft.owner, subaccount := none }))

def icrc7_balance_of (s : State) (accounts : List Account) : List Nat :=
  accounts.map (fun account =>
    match lookup s.owner_tokens account.owner with
    | some tokens => tokens.length
    | none => 0)

def icrc7_tokens (s : State) (prev take : Option Nat) : List Nat :=
  let take_amount := min (take.getD DEFAULT_TAKE_VALUE) MAX_TAKE_VALUE
  let start_id := prev.getD 0
  ((s.nfts.filter (fun p => decide (p.1 ≥ start_id))).take take_amount).map (fun p => p.1)

def icrc7_tokens_of (s : State) (account : Account) (prev take : Option Nat) : List Nat :=
  let take_amount := min (take.getD DEFAULT_TAKE_VALUE) MAX_TAKE_VALUE
  let start_id := prev.getD 0
  (((lookup s.owner_tokens account.owner).getD []).filter
    (fun id => decide (id > start_id))).take take_amount

def is_admin (s : State) (user : Principal) : Bool := (lookup s.admins user).isSome

def is_whitelisted (s : State) (user : Principal) : Bool := (lookup s.whitelist user).isSome

def icrc37_is_approved (s : State) (now : Nat) (spender from_ : Account) (token_id : Nat) :
    Bool :=
  let token_approved :=
    (((lookup s.token_approvals token_id).bind
        (fun spender_map => lookup spender_map spender.owner)).map
      (fun approval_info =>
        match approval_info.expires_at with
        | some expires_at => decide (expires_at > now)
        | none => true)).getD false
  if token_approved then true
  else
    (((lookup s.collection_approvals from_.owner).bind
        (fun spender_map => lookup spender_map spender.owner)).map
      (fun approval_info =>
        match approval_info.expires_at with
        | some expires_at => decide (expires_at > now)
        | none => true)).getD false

/-- The token-scoped approval stored for `(token_id, spender)`, if any. -/
def tokenApprovalOf (s : State) (token_id : Nat) (spender : Principal) :
    Option ApprovalInfo :=
  (lookup s.token_approvals token_id).bind (fun m => lookup m spender)

/-- The collection-scoped approval stored for `(owner, spender)`, if any. -/
def collectionApprovalOf (s : State) (owner spender : Principal) : Option ApprovalInfo :=
  (lookup s.collection_approvals owner).bind (fun m => lookup m spender)

/-! ## Transaction log -/

/-- `record_transaction`: take the next transaction id, bump the counter
and append the record to the log. -/
def record_transaction (s : State) (now : Nat) (kind : String) (token_id : Nat)
    (from_ to_ : Principal) (memo : Option (List Nat)) (operation : String) :
    State × Nat :=
  let transaction_id := s.transaction_id_counter
  let tx : Transaction :=
    { kind := kind, timestamp := now, token_id := token_id, from_ := from_, to_ := to_,
      memo := memo, operation := operation, transaction_id := transaction_id }
  ({ s with transaction_id_counter := transaction_id + 1,
            transactions := s.transactions ++ [tx] },
   transaction_id)

/-! ## Transfers -/

/-- One element of the `icrc7_transfer` batch (the body of the `map`
closure). -/
def icrc7_transferOne (caller now : Nat) (arg : TransferArgs) (s : State) :
    State × Except TransferError Nat :=
  match lookup s.nfts arg.token_id with
  | none => (s, .error .NotFound)
  | some nft =>
    if nft.owner ≠ caller then (s, .error .Unauthorized)
    else
      let to_owner := arg.to_.owner
      let timestamp := arg.created_at_time.getD now
      let nft' : NFT :=
        { nft with
          transfer_history :=
            nft.transfer_history ++ [{ from_ := caller, to_ := to_owner, timestamp := timestamp }],
          owner := to_owner }
      let s1 := { s with nfts := insertKV s.nfts arg.token_id nft' }
      let s2 :=
        { s1 with
          owner_tokens :=
            modifyKV s1.owner_tokens caller
              (fun token_vec => token_vec.filter (fun id => decide (id ≠ arg.token_id))) }
      let s3 :=
        { s2 with
          owner_tokens :=
            insertKV s2.owner_tokens to_owner
              (((lookup s2.owner_tokens to_owner).getD []) ++ [arg.token_id]) }
      let s4 :=
        (record_transaction s3 now "transfer" arg.token_id caller to_owner arg.memo
          "standard_transfer").1
      (s4, .ok timestamp)

/-- `icrc7_transfer`: each request of the batch is evaluated and committed
independently, in array order. -/
def icrc7_transfer (caller now : Nat) (args : List TransferArgs) (s : State) :
    State × List (Except TransferError Nat) :=
  match args with
  | [] => (s, [])
  | arg :: rest =>
    let r1 := icrc7_transferOne caller now arg s
    let r2 := icrc7_transfer caller now rest r1.1
    (r2.1, r1.2 :: r2.2)

/-! ## Approvals -/

/-- One element of the `icrc37_approve_tokens` batch. -/
def icrc37_approve_tokensOne (caller now : Nat) (arg : ApprovalArgs) (s : State) :
    State × Except TransferError Nat :=
  if (lookup s.nfts arg.token_id).isNone then (s, .error .NotFound)
  else
    let token_owner :=
      ((lookup s.nfts arg.token_id).map (fun nft => nft.owner)).getD anonymousPrincipal
    if token_owner ≠ caller then (s, .error .Unauthorized)
    else
      let timestamp := now
      let approval_info : ApprovalInfo :=
        { spender := arg.spender.owner, token_id := arg.token_id,
          expires_at := arg.expires_at, created_at := timestamp }
      let inner := (lookup s.token_approvals arg.token_id).getD []
      let s1 :=
        { s with
          token_approvals :=
            insertKV s.token_approvals arg.token_id
              (insertKV inner arg.spender.owner approval_info) }
      let s2 :=
        (record_transaction s1 now "approve" arg.token_id caller arg.spender.owner arg.memo
          "token_approval").1
      (s2, .ok timestamp)

/-- `icrc37_approve_tokens` batch. -/
def icrc37_approve_tokens (caller now : Nat) (args : List ApprovalArgs) (s : State) :
    State × List (Except TransferError Nat) :=
  match args with
  | [] => (s, [])
  | arg :: rest =>
    let r1 := icrc37_approve_tokensOne caller now arg s
    let r2 := icrc37_approve_tokens caller now rest r1.1
    (r2.1, r1.2 :: r2.2)

/-- `icrc37_approve_collection` (single request). -/
def icrc37_approve_collection (caller now : Nat) (args : ApprovalCollectionArgs) (s : State) :
    State × Except TransferError Nat :=
  if caller = args.spender.owner then
    (s, .error (.GenericError 1 "Self-approval is unnecessary"))
  else
    let timestamp := now
    let approval_info : ApprovalInfo :=
      { spender := args.spender.owner, token_id := 0,
        expires_at := args.expires_at, created_at := timestamp }
    let inner := (lookup s.collection_approvals caller).getD []
    let s1 :=
      { s with
        collection_approvals :=
          insertKV s.collection_approvals caller
            (insertKV inner args.spender.owner approval_info) }
    let s2 :=
      (record_transaction s1 now "approve" 0 caller args.spender.owner args.memo
        "collection_approval").1
    (s2, .ok timestamp)

/-- One element of the `icrc37_transfer_from` batch. -/
def icrc37_transfer_fromOne (caller now : Nat) (arg : TransferFromArgs) (s : State) :
    State × Except TransferError Nat :=
  match lookup s.nfts arg.token_id with
  | none => (s, .error .NotFound)
  | some nft =>
    if nft.owner ≠ arg.from_.owner then (s, .error .Unauthorized)
    else if ¬ icrc37_is_approved s now { owner := caller, subaccount := none }
        { owner := arg.from_.owner, subaccount := none } arg.token_id then
      (s, .error .Unauthorized)
    else
      let timestamp := now
      let nft' : NFT :=
        { nft with
          owner := arg.to_.owner,
          transfer_history :=
            nft.transfer_history ++
              [{ from_ := arg.from_.owner, to_ := arg.to_.owner, timestamp := timestamp }] }
      let s1 := { s with nfts := insertKV s.nfts arg.token_id nft' }
      let s2 :=
        { s1 with
          owner_tokens :=
            modifyKV s1.owner_tokens arg.from_.owner
              (fun token_vec => token_vec.filter (fun id => decide (id ≠ arg.token_id))) }
      let s3 :=
        { s2 with
          owner_tokens :=
            insertKV s2.owner_tokens arg.to_.owner
              (((lookup s2.owner_tokens arg.to_.owner).getD []) ++ [arg.token_id]) }
      let s4 :=
        { s3 with
          token_approvals :=
            modifyKV s3.token_approvals arg.token_id
              (fun spender_map => removeKV spender_map caller) }
      let s5 :=
        (record_transaction s4 now "transfer" arg.token_id arg.from_.owner arg.to_.owner
          arg.memo "transfer_from").1
      (s5, .ok timestamp)

/-- `icrc37_transfer_from` batch. -/
def icrc37_transfer_from (caller now : Nat) (args : List TransferFromArgs) (s : State) :
    State × List (Except TransferError Nat) :=
  match args with
  | [] => (s, [])
  | arg :: rest =>
    let r1 := icrc37_transfer_fromOne caller now arg s
    let r2 := icrc37_transfer_from caller now rest r1.1
    (r2.1, r1.2 :: r2.2)

/-! ## Minting and pricing -/

/-- The schedule filter shared by `mint`, `mint_bundle`,
`get_available_bundles` and `get_user_mint_price`: time constraints and
whitelist status. -/
def schedule_matches (now : Nat) (user_in_whitelist : Bool) (s : MintSchedule) : Bool :=
  let time_valid : Bool :=
    match s.start_time, s.end_time with
    | some start, some en => decide (now ≥ start) && decide (now ≤ en)
    | some start, none => decide (now ≥ start)
    | none, some en => decide (now ≤ en)
    | none, none => true
  let status_matches : Bool := if s.whitelist_only then user_in_whitelist else true
  time_valid && status_matches

/-- The `active_schedules` computation: active schedules whose time window
contains `now` and whose audience matches the caller. -/
def active_schedules_for (now : Nat) (user_in_whitelist : Bool)
    (schedules : List MintSchedule) : List MintSchedule :=
  (schedules.filter (fun s => s.active)).filter (schedule_matches now user_in_whitelist)

/-- The step of `max_by_key(|b| b.quantity)` (on equal keys `max_by_key`
keeps the later element, hence `≤`). -/
def maxStep : Option BundlePrice → BundlePrice → Option BundlePrice
  | none, b => some b
  | some m, b => if m.quantity ≤ b.quantity then some b else some m

/-- `closest_bundle`: the tier with the largest `quantity` not exceeding
the requested quantity (`filter` + `max_by_key`). -/
def closest_bundle (quantity : Nat) (bundle_prices : List BundlePrice) :
    Option BundlePrice :=
  (bundle_prices.filter (fun b => decide (b.quantity ≤ quantity))).foldl maxStep none

/-- The per-schedule step of the best-price fold in
`get_active_mint_price`: ceiling-division bundling over the closest
bundle, keeping the strictly smaller total. -/
def bestStep (quantity : Nat) (best_price : Option Nat) (schedule : MintSchedule) :
    Option Nat :=
  match closest_bundle quantity schedule.bundle_prices with
  | some bundle =>
    let bundle_count := (quantity + bundle.quantity - 1) / bundle.quantity
    let total_price := bundle.price * bundle_count
    match best_price with
    | some current_best =>
      if total_price < current_best then some total_price else some current_best
    | none => some total_price
  | none => best_price

/-- `get_active_mint_price`: lowest total price across the active
schedules, bundling by ceiling division. -/
def get_active_mint_price (quantity : Nat) (active_schedules : List MintSchedule) :
    Except String (Option Nat) :=
  if active_schedules.isEmpty then .error "No active minting schedules available"
  else .ok (active_schedules.foldl (bestStep quantity) none)

/-- `mint_nft`: allocate the next token id, record the owner in the
`TOKENS` map, append the id to the owner's entry of the owner-tokens
index, and remember the asset mapping.  Note that no `NFT` record is
created in the `NFTS` map. -/
def mint_nft (owner : Principal) (asset_id : String) (s : State) : State × Nat :=
  let token_id := s.nft_counter + 1
  let s1 := { s with nft_counter := token_id }
  let s2 := { s1 with tokens := insertKV s1.tokens token_id owner }
  let s3 :=
    { s2 with
      owner_tokens :=
        insertKV s2.owner_tokens owner
          (((lookup s2.owner_tokens owner).getD []) ++ [token_id]) }
  let s4 :=
    if asset_id ≠ "" then { s3 with token_assets := insertKV s3.token_assets token_id asset_id }
    else s3
  (s4, token_id)

/-- The precondition block of `mint` (the `COLLECTION_DETAILS.with`
closure): pricing enabled, an active schedule for the caller, max-supply
headroom, a price for quantity 1. -/
def mint_checks (caller now : Nat) (s : State) : Except String Unit :=
  let details := s.collection_details
  if ¬ details.pricing_enabled then .error "Minting is not enabled"
  else
    let user_in_whitelist := (lookup s.whitelist caller).getD false
    let active_schedules := active_schedules_for now user_in_whitelist details.mint_schedules
    if active_schedules.isEmpty then
      .error "No active minting schedules available for this user"
    else
      let supply_ok : Except String Unit :=
        match details.max_supply with
        | some max_supply =>
          if s.nft_counter ≥ max_supply then .error "Maximum supply reached" else .ok ()
        | none => .ok ()
      match supply_ok with
      | .error e => .error e
      | .ok _ =>
        match get_active_mint_price 1 active_schedules with
        | .error e => .error e
        | .ok none => .error "No price available for this quantity"
        | .ok (some _) => .ok ()

/-- `mint`: single-token mint.  `self_canister` is `ic_cdk::api::id()`. -/
def mint (self_canister caller now : Nat) (args : MintArgs) (s : State) :
    State × Except String Nat :=
  match mint_checks caller now s with
  | .error e => (s, .error e)
  | .ok _ =>
    let r := mint_nft caller args.asset_id s
    let s2 :=
      (record_transaction r.1 now "mint" r.2 self_canister caller none
        ("Minted token " ++ toString r.2 ++ " with asset " ++ args.asset_id)).1
    (s2, .ok r.2)

/-- The precondition block of `mint_bundle` for a requested quantity. -/
def mint_bundle_checks (caller now quantity : Nat) (s : State) : Except String Unit :=
  let details := s.collection_details
  if ¬ details.pricing_enabled then .error "Minting is not enabled"
  else
    let user_in_whitelist := (lookup s.whitelist caller).getD false
    let active_schedules := active_schedules_for now user_in_whitelist details.mint_schedules
    if active_schedules.isEmpty then
      .error "No active minting schedules available for this user"
    else
      let supply_ok : Except String Unit :=
        match details.max_supply with
        | some max_supply =>
          if s.nft_counter + quantity > max_supply then
            .error ("Requested quantity exceeds available supply: " ++
              toString (max_supply - s.nft_counter) ++ " left")
          else .ok ()
        | none => .ok ()
      match supply_ok with
      | .error e => .error e
      | .ok _ =>
        match get_active_mint_price quantity active_schedules with
        | .error e => .error e
        | .ok none => .error ("No price available for quantity " ++ toString quantity)
        | .ok (some _) => .ok ()

/-- The `for _ in 0..quantity` loop of `mint_bundle`.  `generate_uuid()`
hashes the (fixed) call timestamp and raw argument bytes, so it yields the
same string on every iteration of one call; it is passed in as `uuid`. -/
def mint_loop (caller : Nat) (uuid : String) : Nat → State → State × List Nat
  | 0, s => (s, [])
  | Nat.succ q, s =>
    let asset_id := "asset-" ++ uuid
    let r1 := mint_nft caller asset_id s
    let r2 := mint_loop caller uuid q r1.1
    (r2.1, r1.2 :: r2.2)

/-- `mint_bundle`: mint `quantity` tokens, then record a single
transaction referencing the first minted id. -/
def mint_bundle (self_canister caller now : Nat) (uuid : String) (args : MintBundleArgs)
    (s : State) : State × Except String (List Nat) :=
  let quantity := args.quantity
  if quantity = 0 then (s, .error "Quantity must be greater than 0")
  else
    match mint_bundle_checks caller now quantity s with
    | .error e => (s, .error e)
    | .ok _ =>
      let r := mint_loop caller uuid quantity s
      let first_token_id := (r.2.head?).getD 0
      let s2 :=
        (record_transaction r.1 now "mint_bundle" first_token_id self_canister caller none
          ("Minted bundle of " ++ toString quantity ++ " tokens")).1
      (s2, .ok r.2)

/-! ## Administration of collection details and schedules -/

/-- `update_collection_details`: admin-only; `max_supply` may only be set
while no NFT record exists; absent fields are left unchanged (the `logo`
argument is accepted but never applied, as in the source). -/
def update_collection_details (caller : Principal) (args : UpdateCollectionDetailsArgs)
    (s : State) : State × Except String Unit :=
  if ¬ is_admin s caller then
    (s, .error "Unauthorized: Only admins can update collection details")
  else if args.max_supply.isSome ∧ s.nfts.length > 0 then
    (s, .error "Cannot modify max supply after minting has started")
  else
    let d0 := s.collection_details
    let d1 := match args.name with | some v => { d0 with name := v } | none => d0
    let d2 := match args.symbol with | some v => { d1 with symbol := v } | none => d1
    let d3 := match args.description with | some v => { d2 with description := v } | none => d2
    let d4 := match args.max_supply with | some v => { d3 with max_supply := some v } | none => d3
    let d5 := match args.base_url with | some v => { d4 with base_url := v } | none => d4
    let d6 :=
      match args.pricing_enabled with | some v => { d5 with pricing_enabled := v } | none => d5
    let d7 :=
      match args.mint_schedules with | some v => { d6 with mint_schedules := v } | none => d6
    ({ s with collection_details := d7 }, .ok ())

/-- The in-place update of an existing schedule in `update_mint_schedule`:
bundle prices are always overwritten, the remaining fields only when the
argument supplies them. -/
def apply_schedule_update (args : UpdateMintScheduleArgs) (schedule : MintSchedule) :
    MintSchedule :=
  let s1 := { schedule with bundle_prices := args.bundle_prices }
  let s2 := match args.start_time with | some v => { s1 with start_time := some v } | none => s1
  let s3 := match args.end_time with | some v => { s2 with end_time := some v } | none => s2
  let s4 := match args.active with | some v => { s3 with active := v } | none => s3
  match args.whitelist_only with | some v => { s4 with whitelist_only := v } | none => s4

/-- Update the first schedule with the argument's name, or push a new one
with safe defaults at the end of the list. -/
def upsert_schedule (args : UpdateMintScheduleArgs) : List MintSchedule → List MintSchedule
  | [] =>
    [{ name := args.name, bundle_prices := args.bundle_prices,
       start_time := args.start_time, end_time := args.end_time,
       active := args.active.getD false, whitelist_only := args.whitelist_only.getD false }]
  | sch :: rest =>
    if sch.name = args.name then apply_schedule_update args sch :: rest
    else sch :: upsert_schedule args rest

/-- The time-range validation of `update_mint_schedule`: rejects only when
both bounds are supplied in the same call. -/
def bothBoundsInvalid (args : UpdateMintScheduleArgs) : Bool :=
  match args.start_time, args.end_time with
  | some start, some en => decide (en ≤ start)
  | _, _ => false

/-- `update_mint_schedule`. -/
def update_mint_schedule (caller : Principal) (args : UpdateMintScheduleArgs) (s : State) :
    State × Except String Unit :=
  if ¬ is_admin s caller then
    (s, .error "Unauthorized: Only admins can update mint schedules")
  else if args.name = "" then (s, .error "Schedule name cannot be empty")
  else if bothBoundsInvalid args then (s, .error "End time must be after start time")
  else
    ({ s with
        collection_details :=
          { s.collection_details with
            mint_schedules := upsert_schedule args s.collection_details.mint_schedules } },
     .ok ())

/-- `remove_mint_schedule`.  The not-found error computed inside the
`with` closure is discarded by the source, so removal of an unknown name
still returns `Ok`. -/
def remove_mint_schedule (caller : Principal) (name : String) (s : State) :
    State × Except String Unit :=
  if ¬ is_admin s caller then
    (s, .error "Unauthorized: Only admins can remove mint schedules")
  else if name = "" then (s, .error "Schedule name cannot be empty")
  else
    ({ s with
        collection_details :=
          { s.collection_details with
            mint_schedules :=
              s.collection_details.mint_schedules.filter
                (fun sch => decide (sch.name ≠ name)) } },
     .ok ())

/-! ## Operation traces -/

/-- One external mutating call, together with its environment (caller,
wall-clock, canister id, uuid hash). -/
inductive Op where
  | transfer (caller now : Nat) (args : List TransferArgs)
  | approveTokens (caller now : Nat) (args : List ApprovalArgs)
  | approveCollection (caller now : Nat) (args : ApprovalCollectionArgs)
  | transferFrom (caller now : Nat) (args : List TransferFromArgs)
  | mintOp (self_canister caller now : Nat) (args : MintArgs)
  | mintBundleOp (self_canister caller now : Nat) (uuid : String) (args : MintBundleArgs)
  | updateCollection (caller : Principal) (args : UpdateCollectionDetailsArgs)
  | updateSchedule (caller : Principal) (args : UpdateMintScheduleArgs)
  | removeSchedule (caller : Principal) (name : String)
  deriving DecidableEq, Repr

/-- Execute one call, discarding its reply. -/
def step (s : State) (op : Op) : State :=
  match op with
  | .transfer caller now args => (icrc7_transfer caller now args s).1
  | .approveTokens caller now args => (icrc37_approve_tokens caller now args s).1
  | .approveCollection caller now args => (icrc37_approve_collection caller now args s).1
  | .transferFrom caller now args => (icrc37_transfer_from caller now args s).1
  | .mintOp self_canister caller now args => (mint self_canister caller now args s).1
  | .mintBundleOp self_canister caller now uuid args =>
    (mint_bundle self_canister caller now uuid args s).1
  | .updateCollection caller args => (update_collection_details caller args s).1
  | .updateSchedule caller args => (update_mint_schedule caller args s).1
  | .removeSchedule caller name => (remove_mint_schedule caller name s).1

/-- Execute a sequence of calls. -/
def run (s : State) (ops : List Op) : State := ops.foldl step s

/-- The owner-tokens index entry of a principal (empty when absent). -/
def ownerList (s : State) (p : Principal) : List Nat :=
  (lookup s.owner_tokens p).getD []

/-- The expiry check applied by `icrc37_is_approved`:
`expires_at.is_none() || expires_at > now`. -/
def approvalValidAt (info : ApprovalInfo) (now : Nat) : Bool :=
  match info.expires_at with
  | some expires_at => decide (expires_at > now)
  | none => true

/-- Whether a currently-valid collection-scoped approval exists for
`(owner, spender)` at time `now`. -/
def collectionApprovedAt (s : State) (owner spender now : Nat) : Bool :=
  ((collectionApprovalOf s owner spender).map (fun info => approvalValidAt info now)).getD false

/-! ## Example data used by witnesses and counterexamples -/

def exMetadata : NFTMetadata :=
  { name := "", description := "", image_url := "", content_url := none, content_type := none,
    properties := none, is_layered := false, svg_id := none, layers := none }

def exNFT (tid owner : Nat) : NFT :=
  { token_id := tid, owner := owner, metadata := exMetadata, created_at := 0,
    transfer_history := [] }

/-! ## C2: max-supply lock -/

/-- C2: in every state with total supply at least 1 (a nonempty `NFTS`
map), a call to `update_collection_details` that supplies `max_supply`
is rejected with the max-supply error and the state is left entirely
unchanged, for every admin caller and every requested value. -/
theorem C2_max_supply_lock (caller : Principal) (args : UpdateCollectionDetailsArgs)
    (s : State) (v : Nat) (hadmin : is_admin s caller = true)
    (hms : args.max_supply = some v) (hsupply : 1 ≤ icrc7_total_supply s) :
    update_collection_details caller args s =
      (s, .error "Cannot modify max supply after minting has started") := by
  have hpos : s.nfts.length > 0 := hsupply
  simp [update_collection_details, hadmin, hms, hpos]

def exState2 : State := { initState 9 with nfts := [(1, exNFT 1 2)] }

def exArgs2 : UpdateCollectionDetailsArgs :=
  { name := none, symbol := none, description := none, max_supply := some 777,
    base_url := none, logo := none, pricing_enabled := none, mint_schedules := none }

/-- C2 witness: a concrete one-token state where the admin's attempt to
set `max_supply` is rejected without touching the state. -/
theorem C2_witness :
    is_admin exState2 9 = true ∧ 1 ≤ icrc7_total_supply exState2 ∧
    update_collection_details 9 exArgs2 exState2 =
      (exState2, .error "Cannot modify max supply after minting has started") :=
  ⟨rfl, by decide, C2_max_supply_lock 9 exArgs2 exState2 777 rfl rfl (by decide)⟩

/-! ## C6: approval expiry boundary -/

/-- C6 (amended): with all other state held fixed, an approval with
`expires_at = some T` satisfies `icrc37_is_approved = true` exactly for
`now < T` (the boundary instant `now = T` is already expired, since the
code tests `expires_at > now`), and an approval with `expires_at = none`
is valid at every time.  Stated once for a token-scoped approval with no
interfering collection approval, and once for a collection-scoped
approval with no interfering token approval. -/
theorem C6_expiry_boundary (s : State) (now : Nat) (spender from_ : Account)
    (token_id : Nat) (info : ApprovalInfo) :
    (tokenApprovalOf s token_id spender.owner = some info →
      collectionApprovalOf s from_.owner spender.owner = none →
      ((∀ T, info.expires_at = some T →
          (icrc37_is_approved s now spender from_ token_id = true ↔ now < T)) ∧
        (info.expires_at = none → icrc37_is_approved s now spender from_ token_id = true))) ∧
    (collectionApprovalOf s from_.owner spender.owner = some info →
      tokenApprovalOf s token_id spender.owner = none →
      ((∀ T, info.expires_at = some T →
          (icrc37_is_approved s now spender from_ token_id = true ↔ now < T)) ∧
        (info.expires_at = none → icrc37_is_approved s now spender from_ token_id = true))) := by
  constructor
  · intro htok hcol
    unfold tokenApprovalOf at htok
    unfold collectionApprovalOf at hcol
    constructor
    · intro T hT
      simp only [icrc37_is_approved, htok, hcol, Option.map_some', Option.getD_some,
        Option.map_none', Option.getD_none, hT]
      by_cases h : T > now
      · simp [h]
      · simp [h]
    · intro hN
      simp [icrc37_is_approved, htok, hN]
  · intro hcol htok
    unfold tokenApprovalOf at htok
    unfold collectionApprovalOf at hcol
    constructor
    · intro T hT
      simp only [icrc37_is_approved, htok, hcol, Option.map_some', Option.getD_some,
        Option.map_none', Option.getD_none, hT]
      by_cases h : T > now
      · simp [h]
      · simp [h]
    · intro hN
      simp [icrc37_is_approved, htok, hcol, hN]

def exInfo6 : ApprovalInfo :=
  { spender := 3, token_id := 1, expires_at := some 5, created_at := 0 }

def exState6 : State := { initState 7 with token_approvals := [(1, [(3, exInfo6)])] }

/-- C6 counterexample: a token approval expiring at T = 5 is already
invalid at `now = 5`, although the claim asserts validity for every
`now ≤ T`. -/
theorem C6_counterexample :
    tokenApprovalOf exState6 1 3 = some exInfo6 ∧
    exInfo6.expires_at = some 5 ∧ (5 : Nat) ≤ 5 ∧
    icrc37_is_approved exState6 5 { owner := 3, subaccount := none }
      { owner := 2, subaccount := none } 1 = false :=
  ⟨rfl, rfl, le_refl 5, rfl⟩

/-- C6 witness: the amended boundary theorem applied to the concrete
approval, showing validity strictly before T. -/
theorem C6_witness :
    tokenApprovalOf exState6 1 3 = some exInfo6 ∧
    collectionApprovalOf exState6 2 3 = none ∧
    icrc37_is_approved exState6 4 { owner := 3, subaccount := none }
      { owner := 2, subaccount := none } 1 = true := by
  refine ⟨rfl, rfl, ?_⟩
  have h := (C6_expiry_boundary exState6 4 { owner := 3, subaccount := none }
    { owner := 2, subaccount := none } 1 exInfo6).1 rfl rfl
  exact (h.1 5 rfl).mpr (by decide)

/-! ## C9: pagination boundary and order -/

def exState9 : State :=
  { initState 7 with
    owner_tokens := [(2, [7, 6, 3, 9, 5])],
    nfts := [(3, exNFT 3 2), (5, exNFT 5 2), (6, exNFT 6 2), (7, exNFT 7 2), (9, exNFT 9 2)] }

def exState9asc : State :=
  { initState 7 with
    owner_tokens := [(2, [3, 5, 6, 7, 9])],
    nfts := [(3, exNFT 3 2), (5, exNFT 5 2), (6, exNFT 6 2), (7, exNFT 7 2), (9, exNFT 9 2)] }

/-- C9 (amended): `icrc7_tokens_of` returns ids strictly greater than the
cursor and `icrc7_tokens` ids greater than or equal to it, both truncated
to the take count clamped at `MAX_TAKE_VALUE` (default
`DEFAULT_TAKE_VALUE`); the results follow the stored order (the owner's
vector order, resp. the token-map iteration order), so they are ascending
exactly when the stored order is ascending, in which case the spec's
concrete examples `[6,7]` and `[5,6]` are reproduced. -/
theorem C9_pagination :
    (∀ (s : State) (account : Account) (prev take : Option Nat),
      (∀ id ∈ icrc7_tokens_of s account prev take, prev.getD 0 < id) ∧
      (∀ id ∈ icrc7_tokens s prev take, prev.getD 0 ≤ id) ∧
      (icrc7_tokens_of s account prev take).length ≤
        min (take.getD DEFAULT_TAKE_VALUE) MAX_TAKE_VALUE ∧
      (icrc7_tokens s prev take).length ≤
        min (take.getD DEFAULT_TAKE_VALUE) MAX_TAKE_VALUE ∧
      (((lookup s.owner_tokens account.owner).getD []).Pairwise (· < ·) →
        (icrc7_tokens_of s account prev take).Pairwise (· < ·)) ∧
      ((s.nfts.map (fun p => p.1)).Pairwise (· < ·) →
        (icrc7_tokens s prev take).Pairwise (· < ·))) ∧
    icrc7_tokens_of exState9asc { owner := 2, subaccount := none } (some 5) (some 2) = [6, 7] ∧
    icrc7_tokens exState9asc (some 5) (some 2) = [5, 6] := by
  refine ⟨fun s account prev take => ?_, rfl, rfl⟩
  constructor
  · intro id hid
    simp only [icrc7_tokens_of] at hid
    have h1 : id ∈ ((lookup s.owner_tokens account.owner).getD []).filter
        (fun id => decide (id > prev.getD 0)) := List.take_subset _ _ hid
    exact of_decide_eq_true (List.mem_filter.mp h1).2
  constructor
  · intro id hid
    simp only [icrc7_tokens] at hid
    obtain ⟨pair, hpair, rfl⟩ := List.mem_map.mp hid
    have h1 : pair ∈ s.nfts.filter (fun p => decide (p.1 ≥ prev.getD 0)) :=
      List.take_subset _ _ hpair
    exact of_decide_eq_true (List.mem_filter.mp h1).2
  constructor
  · simp only [icrc7_tokens_of]
    rw [List.length_take]
    exact min_le_left _ _
  constructor
  · simp only [icrc7_tokens, List.length_map]
    rw [List.length_take]
    exact min_le_left _ _
  constructor
  · intro hp
    simp only [icrc7_tokens_of]
    exact hp.sublist ((List.filter_sublist _).trans (List.Sublist.refl _) |>.trans
      (List.Sublist.refl _) |>.trans (List.Sublist.refl _)) |>.sublist
      (List.take_sublist _ _) |>.imp (fun h => h)
  · intro hp
    simp only [icrc7_tokens]
    have hsub : List.Sublist (((s.nfts.filter (fun p => decide (p.1 ≥ prev.getD 0))).take
        (min (take.getD DEFAULT_TAKE_VALUE) MAX_TAKE_VALUE)).map (fun p => p.1))
        (s.nfts.map (fun p => p.1)) :=
      ((List.take_sublist _ _).trans (List.filter_sublist _)).map _
    exact hp.sublist hsub

/-- C9 counterexample: over the owned id set {3,5,6,7,9} stored in the
order [7,6,3,9,5], `icrc7_tokens_of` with cursor 5 and limit 2 returns
[7,6], not the ascending [6,7] required by the claim. -/
theorem C9_counterexample :
    ownerList exState9 2 = [7, 6, 3, 9, 5] ∧
    icrc7_tokens_of exState9 { owner := 2, subaccount := none } (some 5) (some 2) = [7, 6] ∧
    [7, 6] ≠ [6, 7] :=
  ⟨rfl, rfl, by decide⟩

/-- C9 witness: the amended theorem applied at a concrete sorted state. -/
theorem C9_witness :
    ((lookup exState9asc.owner_tokens 2).getD []).Pairwise (· < ·) ∧
    (icrc7_tokens_of exState9asc { owner := 2, subaccount := none }
      (some 5) (some 2)).Pairwise (· < ·) := by
  refine ⟨by decide, ?_⟩
  exact (C9_pagination.1 exState9asc { owner := 2, subaccount := none }
    (some 5) (some 2)).2.2.2.2.1 (by decide)

/-! ## C10: schedule time-range invariant -/

/-- C10 (amended): `update_mint_schedule` rejects, before committing
anything, a single update that supplies both bounds with end ≤ start; the
claim's stronger reachability invariant fails, because
`update_collection_details` installs schedule lists without any
validation (see the counterexample). -/
theorem C10_schedule_time_range (caller : Principal) (args : UpdateMintScheduleArgs)
    (s : State) (a b : Nat) (hadmin : is_admin s caller = true) (hname : ¬ (args.name = ""))
    (hstart : args.start_time = some a) (hend : args.end_time = some b) (hba : b ≤ a) :
    update_mint_schedule caller args s = (s, .error "End time must be after start time") := by
  have hb : bothBoundsInvalid args = true := by
    simp [bothBoundsInvalid, hstart, hend, hba]
  simp [update_mint_schedule, hadmin, hname, hb]

def exBadSched10 : MintSchedule :=
  { name := "X", bundle_prices := [], start_time := some 10, end_time := some 5,
    active := false, whitelist_only := false }

def exArgs10 : UpdateCollectionDetailsArgs :=
  { name := none, symbol := none, description := none, max_supply := none, base_url := none,
    logo := none, pricing_enabled := none, mint_schedules := some [exBadSched10] }

/-- C10 counterexample: one reachable `update_collection_details` call by
the deploying admin installs a schedule with start 10 and end 5
(start > end) and still returns `Ok`, violating the claimed invariant. -/
theorem C10_counterexample :
    (update_collection_details 0 exArgs10 (initState 0)).2 = .ok () ∧
    exBadSched10 ∈
      (run (initState 0) [Op.updateCollection 0 exArgs10]).collection_details.mint_schedules ∧
    exBadSched10.start_time = some 10 ∧ exBadSched10.end_time = some 5 ∧ (5 : Nat) < 10 :=
  ⟨rfl, by decide, rfl, rfl, by decide⟩

def exWArgs10 : UpdateMintScheduleArgs :=
  { name := "Y", bundle_prices := [], start_time := some 10, end_time := some 5,
    active := none, whitelist_only := none }

/-- C10 witness: the amended rejection theorem at a concrete call. -/
theorem C10_witness :
    is_admin (initState 0) 0 = true ∧
    update_mint_schedule 0 exWArgs10 (initState 0) =
      (initState 0, .error "End time must be after start time") :=
  ⟨rfl, C10_schedule_time_range 0 exWArgs10 (initState 0) 10 5 rfl (by decide) rfl rfl
    (by decide)⟩

/-! ## C8: batch partial success -/

theorem icrc7_transfer_append (caller now : Nat) (args1 args2 : List TransferArgs)
    (s : State) :
    icrc7_transfer caller now (args1 ++ args2) s =
      ((icrc7_transfer caller now args2 (icrc7_transfer caller now args1 s).1).1,
       (icrc7_transfer caller now args1 s).2 ++
         (icrc7_transfer caller now args2 (icrc7_transfer caller now args1 s).1).2) := by
  induction args1 generalizing s with
  | nil => rfl
  | cons a rest ih =>
    show ((icrc7_transfer caller now (rest ++ args2) (icrc7_transferOne caller now a s).1).1,
          (icrc7_transferOne caller now a s).2 ::
            (icrc7_transfer caller now (rest ++ args2) (icrc7_transferOne caller now a s).1).2) =
      _
    rw [ih]
    rfl

theorem icrc7_transfer_length (caller now : Nat) (args : List TransferArgs) (s : State) :
    (icrc7_transfer caller now args s).2.length = args.length := by
  induction args generalizing s with
  | nil => simp [icrc7_transfer]
  | cons a rest ih => simp [icrc7_transfer, ih]

theorem icrc37_transfer_from_append (caller now : Nat) (args1 args2 : List TransferFromArgs)
    (s : State) :
    icrc37_transfer_from caller now (args1 ++ args2) s =
      ((icrc37_transfer_from caller now args2 (icrc37_transfer_from caller now args1 s).1).1,
       (icrc37_transfer_from caller now args1 s).2 ++
         (icrc37_transfer_from caller now args2
           (icrc37_transfer_from caller now args1 s).1).2) := by
  induction args1 generalizing s with
  | nil => rfl
  | cons a rest ih =>
    show ((icrc37_transfer_from caller now (rest ++ args2)
            (icrc37_transfer_fromOne caller now a s).1).1,
          (icrc37_transfer_fromOne caller now a s).2 ::
            (icrc37_transfer_from caller now (rest ++ args2)
              (icrc37_transfer_fromOne caller now a s).1).2) =
      _
    rw [ih]
    rfl

theorem icrc37_transfer_from_length (caller now : Nat) (args : List TransferFromArgs)
    (s : State) :
    (icrc37_transfer_from caller now args s).2.length = args.length := by
  induction args generalizing s with
  | nil => simp [icrc37_transfer_from]
  | cons a rest ih => simp [icrc37_transfer_from, ih]

def exState8 : State :=
  { initState 7 with
    nfts := [(1, exNFT 1 2), (3, exNFT 3 2)],
    owner_tokens := [(2, [1, 3])] }

def exTArg (tid dest : Nat) : TransferArgs :=
  { from_subaccount := none, to_ := { owner := dest, subaccount := none }, token_id := tid,
    memo := none, created_at_time := none }

/-- C8: transfer batches are evaluated element by element in array order,
each element committing against the state left by its predecessors
(splitting a batch is the same as running its two halves in sequence, so
a failing element neither aborts nor rolls back its siblings), and the
result is a parallel array with one outcome per request; in the concrete
3-element batch whose second element names the nonexistent token 2, the
results are [Ok, Err NotFound, Ok] and the first and third transfers are
committed to the store. -/
theorem C8_batch_partial_success :
    (∀ (caller now : Nat) (args1 args2 : List TransferArgs) (s : State),
      icrc7_transfer caller now (args1 ++ args2) s =
        ((icrc7_transfer caller now args2 (icrc7_transfer caller now args1 s).1).1,
         (icrc7_transfer caller now args1 s).2 ++
           (icrc7_transfer caller now args2 (icrc7_transfer caller now args1 s).1).2)) ∧
    (∀ (caller now : Nat) (args : List TransferArgs) (s : State),
      (icrc7_transfer caller now args s).2.length = args.length) ∧
    (∀ (caller now : Nat) (args1 args2 : List TransferFromArgs) (s : State),
      icrc37_transfer_from caller now (args1 ++ args2) s =
        ((icrc37_transfer_from caller now args2
            (icrc37_transfer_from caller now args1 s).1).1,
         (icrc37_transfer_from caller now args1 s).2 ++
           (icrc37_transfer_from caller now args2
             (icrc37_transfer_from caller now args1 s).1).2)) ∧
    (∀ (caller now : Nat) (args : List TransferFromArgs) (s : State),
      (icrc37_transfer_from caller now args s).2.length = args.length) ∧
    (icrc7_transfer 2 100 [exTArg 1 5, exTArg 2 5, exTArg 3 6] exState8).2 =
      [.ok 100, .error .NotFound, .ok 100] ∧
    (lookup (icrc7_transfer 2 100 [exTArg 1 5, exTArg 2 5, exTArg 3 6] exState8).1.nfts 1).map
      (fun nft => nft.owner) = some 5 ∧
    (lookup (icrc7_transfer 2 100 [exTArg 1 5, exTArg 2 5, exTArg 3 6] exState8).1.nfts 3).map
      (fun nft => nft.owner) = some 6 :=
  ⟨icrc7_transfer_append, icrc7_transfer_length, icrc37_transfer_from_append,
   icrc37_transfer_from_length, rfl, rfl, rfl⟩

/-! ## C4: best-price computation -/

/-- The spec's description of a single schedule's contribution: take the
tier with the largest `quantity` not exceeding the request (tiers above
the request are ineligible) and charge the ceiling-division bundle count
times its price; nothing when no tier is eligible. -/
def schedulePriceSpec (q : Nat) (sch : MintSchedule) : Option Nat :=
  let elig := sch.bundle_prices.filter (fun b => decide (b.quantity ≤ q))
  match elig.find? (fun b => elig.all (fun b2 => decide (b2.quantity ≤ b.quantity))) with
  | some b => some (b.price * ((q + b.quantity - 1) / b.quantity))
  | none => none

/-- The total the code charges for one schedule, factored out of
`bestStep`. -/
def codeSchedulePrice (q : Nat) (sch : MintSchedule) : Option Nat :=
  (closest_bundle q sch.bundle_prices).map
    (fun bundle => bundle.price * ((q + bundle.quantity - 1) / bundle.quantity))

theorem maxStep_isSome (acc : Option BundlePrice) (b : BundlePrice) :
    (maxStep acc b).isSome = true := by
  cases acc with
  | none => rfl
  | some m =>
    simp only [maxStep]
    split
    · rfl
    · rfl

theorem maxStep_le_left (a : BundlePrice) (b c : BundlePrice)
    (h : maxStep (some a) b = some c) : a.quantity ≤ c.quantity := by
  simp only [maxStep] at h
  by_cases hq : a.quantity ≤ b.quantity
  · rw [if_pos hq] at h
    cases h
    exact hq
  · rw [if_neg hq] at h
    cases h
    exact le_refl _

theorem maxStep_le_right (acc : Option BundlePrice) (b c : BundlePrice)
    (h : maxStep acc b = some c) : b.quantity ≤ c.quantity := by
  cases acc with
  | none =>
    cases h
    exact le_refl _
  | some m =>
    simp only [maxStep] at h
    by_cases hq : m.quantity ≤ b.quantity
    · rw [if_pos hq] at h
      cases h
      exact le_refl _
    · rw [if_neg hq] at h
      cases h
      exact le_of_not_le hq

theorem foldl_maxStep_ne_none (l : List BundlePrice) (a : BundlePrice) :
    l.foldl maxStep (some a) ≠ none := by
  induction l generalizing a with
  | nil => intro h; cases h
  | cons hd tl ih =>
    simp only [List.foldl]
    cases hm : maxStep (some a) hd with
    | none =>
      have hs := maxStep_isSome (some a) hd
      rw [hm] at hs
      cases hs
    | some c => exact ih c

theorem foldl_maxStep_some (l : List BundlePrice) (acc : Option BundlePrice)
    (b : BundlePrice) (h : l.foldl maxStep acc = some b) :
    (b ∈ l ∨ acc = some b) ∧ (∀ x ∈ l, x.quantity ≤ b.quantity) ∧
      (∀ a, acc = some a → a.quantity ≤ b.quantity) := by
  induction l generalizing acc with
  | nil =>
    refine ⟨Or.inr h, by simp, fun a ha => ?_⟩
    rw [ha] at h
    cases h
    exact le_refl _
  | cons hd tl ih =>
    simp only [List.foldl] at h
    obtain ⟨hmem, hall, hacc⟩ := ih (maxStep acc hd) h
    have hstep : ∃ c, maxStep acc hd = some c := by
      have hs := maxStep_isSome acc hd
      cases hm : maxStep acc hd with
      | none => rw [hm] at hs; cases hs
      | some c => exact ⟨c, rfl⟩
    obtain ⟨c, hc⟩ := hstep
    refine ⟨?_, ?_, ?_⟩
    · rcases hmem with hb | hstepb
      · exact Or.inl (List.mem_cons_of_mem _ hb)
      · cases acc with
        | none =>
          cases hstepb
          exact Or.inl (List.mem_cons_self _ _)
        | some m =>
          simp only [maxStep] at hstepb
          by_cases hq : m.quantity ≤ hd.quantity
          · rw [if_pos hq] at hstepb
            cases hstepb
            exact Or.inl (List.mem_cons_self _ _)
          · rw [if_neg hq] at hstepb
            exact Or.inr hstepb
    · intro x hx
      rcases List.mem_cons.mp hx with rfl | hx'
      · exact le_trans (maxStep_le_right acc x c hc) (hacc c hc)
      · exact hall x hx'
    · intro a ha
      subst ha
      exact le_trans (maxStep_le_left a hd c hc) (hacc c hc)

theorem closest_bundle_none (q : Nat) (bs : List BundlePrice) :
    closest_bundle q bs = none ↔ bs.filter (fun b => decide (b.quantity ≤ q)) = [] := by
  unfold closest_bundle
  cases hf : bs.filter (fun b => decide (b.quantity ≤ q)) with
  | nil => simp
  | cons hd tl =>
    simp only [List.foldl]
    constructor
    · intro h
      exact absurd h (foldl_maxStep_ne_none tl hd)
    · intro h
      cases h

theorem closest_bundle_some (q : Nat) (bs : List BundlePrice) (b : BundlePrice)
    (h : closest_bundle q bs = some b) :
    b ∈ bs.filter (fun b2 => decide (b2.quantity ≤ q)) ∧
      ∀ x ∈ bs.filter (fun b2 => decide (b2.quantity ≤ q)), x.quantity ≤ b.quantity := by
  unfold closest_bundle at h
  obtain ⟨hmem, hall, _⟩ := foldl_maxStep_some _ none b h
  rcases hmem with hb | hb
  · exact ⟨hb, hall⟩
  · cases hb

/-- The code's per-schedule charge coincides with the spec's description
when the schedule's tier quantities are pairwise distinct. -/
theorem codeSchedulePrice_eq_spec (q : Nat) (sch : MintSchedule)
    (hnodup : (sch.bundle_prices.map (fun b => b.quantity)).Nodup) :
    codeSchedulePrice q sch = schedulePriceSpec q sch := by
  cases hcb : closest_bundle q sch.bundle_prices with
  | none =>
    have hnil := (closest_bundle_none q sch.bundle_prices).mp hcb
    simp [codeSchedulePrice, schedulePriceSpec, hcb, hnil]
  | some b =>
    obtain ⟨hmem, hmax⟩ := closest_bundle_some q sch.bundle_prices b hcb
    have hpred : (sch.bundle_prices.filter (fun b2 => decide (b2.quantity ≤ q))).all
        (fun b2 => decide (b2.quantity ≤ b.quantity)) = true := by
      rw [List.all_eq_true]
      intro x hx
      exact decide_eq_true (hmax x hx)
    have hfind : ((sch.bundle_prices.filter (fun b2 => decide (b2.quantity ≤ q))).find?
        (fun b3 => (sch.bundle_prices.filter (fun b2 => decide (b2.quantity ≤ q))).all
          (fun b2 => decide (b2.quantity ≤ b3.quantity)))).isSome := by
      rw [List.find?_isSome]
      exact ⟨b, hmem, hpred⟩
    obtain ⟨b0, hb0⟩ := Option.isSome_iff_exists.mp hfind
    have hb0mem := List.mem_of_find?_eq_some hb0
    have hb0pred := List.find?_some hb0
    have hmax0 : ∀ x ∈ sch.bundle_prices.filter (fun b2 => decide (b2.quantity ≤ q)),
        x.quantity ≤ b0.quantity := by
      intro x hx
      exact of_decide_eq_true (List.all_eq_true.mp hb0pred x hx)
    have heq : b.quantity = b0.quantity :=
      le_antisymm (hmax0 b hmem) (hmax b0 hb0mem)
    have hbb0 : b = b0 :=
      List.inj_on_of_nodup_map hnodup (List.mem_filter.mp hmem).1
        (List.mem_filter.mp hb0mem).1 heq
    subst hbb0
    simp only [codeSchedulePrice, schedulePriceSpec, hcb, hb0, Option.map_some']

theorem bestStep_none (q : Nat) (acc : Option Nat) (sch : MintSchedule) :
    bestStep q acc sch = none ↔ acc = none ∧ codeSchedulePrice q sch = none := by
  cases hcb : closest_bundle q sch.bundle_prices with
  | none =>
    simp [bestStep, codeSchedulePrice, hcb]
  | some bundle =>
    cases acc with
    | none => simp [bestStep, codeSchedulePrice, hcb]
    | some cur =>
      simp only [bestStep, codeSchedulePrice, hcb, Option.map_some']
      constructor
      · intro h
        by_cases hlt : bundle.price * ((q + bundle.quantity - 1) / bundle.quantity) < cur
        · rw [if_pos hlt] at h; cases h
        · rw [if_neg hlt] at h; cases h
      · rintro ⟨h1, _⟩
        cases h1

theorem bestStep_some (q : Nat) (acc : Option Nat) (sch : MintSchedule) (v : Nat)
    (h : bestStep q acc sch = some v) :
    (acc = some v ∨ codeSchedulePrice q sch = some v) ∧
      (∀ w, acc = some w → v ≤ w) ∧
      (∀ w, codeSchedulePrice q sch = some w → v ≤ w) := by
  cases hcb : closest_bundle q sch.bundle_prices with
  | none =>
    simp only [bestStep, hcb] at h
    simp only [codeSchedulePrice, hcb, Option.map_none']
    refine ⟨Or.inl h, fun w hw => ?_, fun w hw => ?_⟩
    · rw [hw] at h; cases h; exact le_refl _
    · cases hw
  | some bundle =>
    simp only [codeSchedulePrice, hcb, Option.map_some']
    cases acc with
    | none =>
      simp only [bestStep, hcb] at h
      cases h
      refine ⟨Or.inr rfl, ?_, ?_⟩
      · intro w hw
        cases hw
      · intro w hw
        cases hw
        exact le_refl _
    | some cur =>
      simp only [bestStep, hcb] at h
      by_cases hlt : bundle.price * ((q + bundle.quantity - 1) / bundle.quantity) < cur
      · rw [if_pos hlt] at h
        cases h
        refine ⟨Or.inr rfl, fun w hw => ?_, fun w hw => ?_⟩
        · cases hw; exact le_of_lt hlt
        · cases hw; exact le_refl _
      · rw [if_neg hlt] at h
        cases h
        refine ⟨Or.inl rfl, fun w hw => ?_, fun w hw => ?_⟩
        · cases hw; exact le_refl _
        · cases hw; exact le_of_not_lt hlt

theorem foldl_bestStep_none (q : Nat) (l : List MintSchedule) (acc : Option Nat) :
    l.foldl (bestStep q) acc = none ↔
      acc = none ∧ ∀ sch ∈ l, codeSchedulePrice q sch = none := by
  induction l generalizing acc with
  | nil => simp
  | cons hd tl ih =>
    simp only [List.foldl]
    rw [ih]
    constructor
    · rintro ⟨h1, h2⟩
      obtain ⟨ha, hhd⟩ := (bestStep_none q acc hd).mp h1
      refine ⟨ha, fun sch hs => ?_⟩
      rcases List.mem_cons.mp hs with rfl | hs'
      · exact hhd
      · exact h2 sch hs'
    · rintro ⟨ha, hall⟩
      refine ⟨(bestStep_none q acc hd).mpr ⟨ha, hall hd (List.mem_cons_self _ _)⟩,
        fun sch hs => hall sch (List.mem_cons_of_mem _ hs)⟩

theorem foldl_bestStep_some (q : Nat) (l : List MintSchedule) (acc : Option Nat) (v : Nat)
    (h : l.foldl (bestStep q) acc = some v) :
    (acc = some v ∨ ∃ sch ∈ l, codeSchedulePrice q sch = some v) ∧
      (∀ w, acc = some w → v ≤ w) ∧
      (∀ sch ∈ l, ∀ w, codeSchedulePrice q sch = some w → v ≤ w) := by
  induction l generalizing acc with
  | nil =>
    refine ⟨Or.inl h, fun w hw => ?_, by simp⟩
    rw [hw] at h
    cases h
    exact le_refl _
  | cons hd tl ih =>
    simp only [List.foldl] at h
    obtain ⟨hmem, hacc, hall⟩ := ih (bestStep q acc hd) h
    have hstepfacts : ∀ c, bestStep q acc hd = some c →
        (acc = some c ∨ codeSchedulePrice q hd = some c) ∧
          (∀ w, acc = some w → c ≤ w) ∧
          (∀ w, codeSchedulePrice q hd = some w → c ≤ w) :=
      fun c hc => bestStep_some q acc hd c hc
    refine ⟨?_, ?_, ?_⟩
    · rcases hmem with hstep | ⟨sch, hs, hcode⟩
      · rcases (hstepfacts v hstep).1 with ha | hhd
        · exact Or.inl ha
        · exact Or.inr ⟨hd, List.mem_cons_self _ _, hhd⟩
      · exact Or.inr ⟨sch, List.mem_cons_of_mem _ hs, hcode⟩
    · intro w hw
      cases hc : bestStep q acc hd with
      | none =>
        obtain ⟨ha, _⟩ := (bestStep_none q acc hd).mp hc
        rw [ha] at hw
        cases hw
      | some c =>
        exact le_trans (hacc c hc) ((hstepfacts c hc).2.1 w hw)
    · intro sch hs w hw
      rcases List.mem_cons.mp hs with rfl | hs'
      · cases hc : bestStep q acc sch with
        | none =>
          obtain ⟨_, hnone⟩ := (bestStep_none q acc sch).mp hc
          rw [hnone] at hw
          cases hw
        | some c =>
          exact le_trans (hacc c hc) ((hstepfacts c hc).2.2 w hw)
      · exact hall sch hs' w hw

def exSched4 : MintSchedule :=
  { name := "S", bundle_prices := [{ quantity := 1, price := 10 }, { quantity := 5, price := 40 }],
    start_time := none, end_time := none, active := true, whitelist_only := false }

/-- C4 (amended): for a nonempty list of qualifying schedules (with
positive, pairwise-distinct tier quantities), `get_active_mint_price`
returns `Ok` of the minimum, over all schedules with an eligible tier, of
the charge described by the spec (largest eligible tier, ceiling-division
bundling), and `none` when no schedule has an eligible tier; for tiers
{1: 10, 5: 40} the result for quantity 7 is 80 and for quantity 3 it is
ceil(3/1)*10 = 30 (not 10 as the claim computes). -/
theorem C4_best_price :
    (∀ (q : Nat) (scheds : List MintSchedule), 1 ≤ q → scheds ≠ [] →
      (∀ sch ∈ scheds, ∀ b ∈ sch.bundle_prices, 1 ≤ b.quantity) →
      (∀ sch ∈ scheds, (sch.bundle_prices.map (fun b => b.quantity)).Nodup) →
      ∃ r, get_active_mint_price q scheds = .ok r ∧
        (r = none ↔ ∀ sch ∈ scheds, schedulePriceSpec q sch = none) ∧
        (∀ v, r = some v →
          (∃ sch ∈ scheds, schedulePriceSpec q sch = some v) ∧
          (∀ sch ∈ scheds, ∀ w, schedulePriceSpec q sch = some w → v ≤ w))) ∧
    get_active_mint_price 7 [exSched4] = .ok (some 80) ∧
    get_active_mint_price 3 [exSched4] = .ok (some 30) := by
  refine ⟨?_, rfl, rfl⟩
  intro q scheds hq hne hpos hnodup
  have hempty : scheds.isEmpty = false := by
    cases scheds with
    | nil => exact absurd rfl hne
    | cons a l => rfl
  refine ⟨scheds.foldl (bestStep q) none, ?_, ?_, ?_⟩
  · simp [get_active_mint_price, hempty]
  · rw [foldl_bestStep_none]
    constructor
    · rintro ⟨_, h2⟩
      intro sch hs
      rw [← codeSchedulePrice_eq_spec q sch (hnodup sch hs)]
      exact h2 sch hs
    · intro h
      refine ⟨rfl, fun sch hs => ?_⟩
      rw [codeSchedulePrice_eq_spec q sch (hnodup sch hs)]
      exact h sch hs
  · intro v hv
    obtain ⟨hmem, _, hmin⟩ := foldl_bestStep_some q scheds none v hv
    rcases hmem with hnone | ⟨sch, hs, hcode⟩
    · cases hnone
    · refine ⟨⟨sch, hs, ?_⟩, fun sch2 hs2 w hw => ?_⟩
      · rw [← codeSchedulePrice_eq_spec q sch (hnodup sch hs)]
        exact hcode
      · refine hmin sch2 hs2 w ?_
        rw [codeSchedulePrice_eq_spec q sch2 (hnodup sch2 hs2)]
        exact hw

/-- C4 counterexample: for quantity 3 over tiers {1: 10, 5: 40} the code
returns 30 = ceil(3/1)*10, not the 10 the claim asserts; and an empty
schedule list yields an error rather than `None`. -/
theorem C4_counterexample :
    get_active_mint_price 3 [exSched4] = .ok (some 30) ∧
    (30 : Nat) ≠ 10 ∧
    get_active_mint_price 7 ([] : List MintSchedule) =
      .error "No active minting schedules available" :=
  ⟨rfl, by decide, rfl⟩

/-- C4 witness: the amended theorem applied at quantity 7 over the
concrete schedule, recovering the spec's 80. -/
theorem C4_witness :
    (1 : Nat) ≤ 7 ∧ ([exSched4] ≠ ([] : List MintSchedule)) ∧
    (∃ sch ∈ [exSched4], schedulePriceSpec 7 sch = some 80) := by
  refine ⟨by decide, by decide, ?_⟩
  obtain ⟨r, hok, hnone, hsome⟩ := C4_best_price.1 7 [exSched4] (by decide) (by decide)
    (by decide) (by decide)
  have h80 : get_active_mint_price 7 [exSched4] = .ok (some 80) := rfl
  have hr : r = some 80 := Except.ok.inj (hok.symm.trans h80)
  exact (hsome 80 hr).1

/-! ## C5: delegated-transfer consumption -/

/-- `icrc37_is_approved` as the disjunction of its two lookups. -/
theorem is_approved_or (s : State) (now : Nat) (sp fr : Account) (tid : Nat) :
    icrc37_is_approved s now sp fr tid =
      (((tokenApprovalOf s tid sp.owner).map (fun i => approvalValidAt i now)).getD false ||
        collectionApprovedAt s fr.owner sp.owner now) := by
  simp only [icrc37_is_approved, tokenApprovalOf, collectionApprovedAt, collectionApprovalOf,
    approvalValidAt]
  cases ht : (lookup s.token_approvals tid).bind (fun m => lookup m sp.owner) with
  | none => simp [ht]
  | some i =>
    cases hie : i.expires_at with
    | none => simp [ht, hie]
    | some e =>
      by_cases hd : e > now
      · simp [ht, hie, hd]
      · simp [ht, hie, hd]

theorem tfo_unauthorized (caller now : Nat) (arg : TransferFromArgs) (s : State) (nft : NFT)
    (hl : lookup s.nfts arg.token_id = some nft)
    (hna : icrc37_is_approved s now { owner := caller, subaccount := none }
        { owner := arg.from_.owner, subaccount := none } arg.token_id = false ∨
      nft.owner ≠ arg.from_.owner) :
    (icrc37_transfer_fromOne caller now arg s).2 = .error .Unauthorized := by
  rcases hna with ha | ho
  · by_cases ho : nft.owner = arg.from_.owner
    · simp [icrc37_transfer_fromOne, hl, ho, ha]
    · simp [icrc37_transfer_fromOne, hl, ho]
  · simp [icrc37_transfer_fromOne, hl, ho]

theorem tfo_ok (caller now : Nat) (arg : TransferFromArgs) (s : State) (nft : NFT)
    (hl : lookup s.nfts arg.token_id = some nft)
    (ho : nft.owner = arg.from_.owner)
    (ha : icrc37_is_approved s now { owner := caller, subaccount := none }
        { owner := arg.from_.owner, subaccount := none } arg.token_id = true) :
    (icrc37_transfer_fromOne caller now arg s).2 = .ok now := by
  simp [icrc37_transfer_fromOne, hl, ho, ha]

/-- The state fields a successful `icrc37_transfer_from` element leaves
behind. -/
theorem tfo_success_fields (caller now : Nat) (arg : TransferFromArgs) (s : State)
    (nft : NFT) (hl : lookup s.nfts arg.token_id = some nft)
    (ho : nft.owner = arg.from_.owner)
    (ha : icrc37_is_approved s now { owner := caller, subaccount := none }
        { owner := arg.from_.owner, subaccount := none } arg.token_id = true) :
    (icrc37_transfer_fromOne caller now arg s).1.token_approvals =
        modifyKV s.token_approvals arg.token_id (fun m => removeKV m caller) ∧
    (icrc37_transfer_fromOne caller now arg s).1.collection_approvals =
        s.collection_approvals ∧
    lookup (icrc37_transfer_fromOne caller now arg s).1.nfts arg.token_id =
      some { nft with
             owner := arg.to_.owner,
             transfer_history := nft.transfer_history ++
               [{ from_ := arg.from_.owner, to_ := arg.to_.owner, timestamp := now }] } := by
  refine ⟨?_, ?_, ?_⟩
  · simp [icrc37_transfer_fromOne, hl, ho, ha, record_transaction]
  · simp [icrc37_transfer_fromOne, hl, ho, ha, record_transaction]
  · simp [icrc37_transfer_fromOne, hl, ho, ha, record_transaction, lookup_insertKV]

/-- C5: a successful `icrc37_transfer_from` element removes the
token-scoped approval for (token, spender) and leaves the
collection-approval store untouched; consequently a repeat of the same
request fails `Unauthorized` whenever the spender holds no currently
valid collection approval from the stated owner, while a spender holding
a valid collection approval from an owner can keep transferring whatever
tokens that owner still holds. -/
theorem C5_delegated_transfer_consumption (caller now : Nat) (arg : TransferFromArgs)
    (s : State)
    (hsucc : (icrc37_transfer_fromOne caller now arg s).2 = .ok now) :
    tokenApprovalOf (icrc37_transfer_fromOne caller now arg s).1 arg.token_id caller =
        none ∧
    (icrc37_transfer_fromOne caller now arg s).1.collection_approvals =
        s.collection_approvals ∧
    (∀ now2, collectionApprovedAt (icrc37_transfer_fromOne caller now arg s).1
        arg.from_.owner caller now2 = false →
      (icrc37_transfer_fromOne caller now2 arg
        (icrc37_transfer_fromOne caller now arg s).1).2 = .error .Unauthorized) ∧
    (∀ (now2 : Nat) (arg2 : TransferFromArgs) (nft2 : NFT) (info : ApprovalInfo),
      lookup (icrc37_transfer_fromOne caller now arg s).1.nfts arg2.token_id = some nft2 →
      nft2.owner = arg2.from_.owner →
      collectionApprovalOf (icrc37_transfer_fromOne caller now arg s).1 arg2.from_.owner
        caller = some info →
      approvalValidAt info now2 = true →
      (icrc37_transfer_fromOne caller now2 arg2
        (icrc37_transfer_fromOne caller now arg s).1).2 = .ok now2) := by
  cases hnft : lookup s.nfts arg.token_id with
  | none => simp [icrc37_transfer_fromOne, hnft] at hsucc
  | some nft =>
    by_cases howner : nft.owner = arg.from_.owner
    · by_cases happ : icrc37_is_approved s now { owner := caller, subaccount := none }
          { owner := arg.from_.owner, subaccount := none } arg.token_id = true
      · obtain ⟨hta, hca, hnl⟩ := tfo_success_fields caller now arg s nft hnft howner happ
        have htok1 : tokenApprovalOf (icrc37_transfer_fromOne caller now arg s).1
            arg.token_id caller = none := by
          rw [tokenApprovalOf, hta, lookup_modifyKV, if_pos rfl]
          cases hm : lookup s.token_approvals arg.token_id with
          | none => rfl
          | some m => simp [lookup_removeKV]
        refine ⟨htok1, hca, ?_, ?_⟩
        · intro now2 hcol
          have happ2 : icrc37_is_approved (icrc37_transfer_fromOne caller now arg s).1 now2
              { owner := caller, subaccount := none }
              { owner := arg.from_.owner, subaccount := none } arg.token_id = false := by
            rw [is_approved_or]
            simp only at hcol ⊢
            simp [htok1, hcol]
          exact tfo_unauthorized caller now2 arg _ _ hnl (Or.inl happ2)
        · intro now2 arg2 nft2 info hl2 ho2 hc2 hv2
          have happ3 : icrc37_is_approved (icrc37_transfer_fromOne caller now arg s).1 now2
              { owner := caller, subaccount := none }
              { owner := arg2.from_.owner, subaccount := none } arg2.token_id = true := by
            rw [is_approved_or]
            simp only [collectionApprovedAt]
            simp [hc2, hv2]
          exact tfo_ok caller now2 arg2 _ nft2 hl2 ho2 happ3
      · have : (icrc37_transfer_fromOne caller now arg s).2 = .error .Unauthorized := by
          simp only [Bool.not_eq_true] at happ
          exact tfo_unauthorized caller now arg s nft hnft (Or.inl happ)
        rw [this] at hsucc
        cases hsucc
    · have : (icrc37_transfer_fromOne caller now arg s).2 = .error .Unauthorized :=
        tfo_unauthorized caller now arg s nft hnft (Or.inr howner)
      rw [this] at hsucc
      cases hsucc

def exApInfo5 : ApprovalInfo :=
  { spender := 3, token_id := 1, expires_at := none, created_at := 0 }

def exColInfo5 : ApprovalInfo :=
  { spender := 3, token_id := 0, expires_at := none, created_at := 0 }

def exState5 : State :=
  { initState 7 with
    nfts := [(1, exNFT 1 2), (2, exNFT 2 2)],
    owner_tokens := [(2, [1, 2])],
    token_approvals := [(1, [(3, exApInfo5)])],
    collection_approvals := [(2, [(3, exColInfo5)])] }

def exState5b : State :=
  { initState 7 with
    nfts := [(1, exNFT 1 2), (2, exNFT 2 2)],
    owner_tokens := [(2, [1, 2])],
    token_approvals := [(1, [(3, exApInfo5)])] }

def exTFArg1 : TransferFromArgs :=
  { spender_subaccount := none, from_ := { owner := 2, subaccount := none },
    to_ := { owner := 4, subaccount := none }, token_id := 1, memo := none,
    created_at_time := none }

def exTFArg2 : TransferFromArgs :=
  { spender_subaccount := none, from_ := { owner := 2, subaccount := none },
    to_ := { owner := 4, subaccount := none }, token_id := 2, memo := none,
    created_at_time := none }

/-- C5 witness: spender 3 transfers token 1 away from owner 2 by token
approval; the approval is consumed, a collection grant keeps working on
token 2, and without any collection grant the repeat fails Unauthorized. -/
theorem C5_witness :
    (icrc37_transfer_fromOne 3 10 exTFArg1 exState5).2 = .ok 10 ∧
    tokenApprovalOf (icrc37_transfer_fromOne 3 10 exTFArg1 exState5).1 1 3 = none ∧
    (icrc37_transfer_fromOne 3 12 exTFArg2
      (icrc37_transfer_fromOne 3 10 exTFArg1 exState5).1).2 = .ok 12 ∧
    (icrc37_transfer_fromOne 3 10 exTFArg1 exState5b).2 = .ok 10 ∧
    (icrc37_transfer_fromOne 3 11 exTFArg1
      (icrc37_transfer_fromOne 3 10 exTFArg1 exState5b).1).2 = .error .Unauthorized := by
  have h := C5_delegated_transfer_consumption 3 10 exTFArg1 exState5 rfl
  have hb := C5_delegated_transfer_consumption 3 10 exTFArg1 exState5b rfl
  exact ⟨rfl, h.1, h.2.2.2 12 exTFArg2 (exNFT 2 2) exColInfo5 rfl rfl rfl rfl, rfl,
    hb.2.2.1 11 rfl⟩

/-! ## Field-preservation lemmas for the trace invariants -/

theorem record_transaction_fields (s : State) (now : Nat) (kind : String) (token_id : Nat)
    (from_ to_ : Principal) (memo : Option (List Nat)) (operation : String) :
    (record_transaction s now kind token_id from_ to_ memo operation).1.nfts = s.nfts ∧
    (record_transaction s now kind token_id from_ to_ memo operation).1.owner_tokens =
      s.owner_tokens ∧
    (record_transaction s now kind token_id from_ to_ memo operation).1.nft_counter =
      s.nft_counter :=
  ⟨rfl, rfl, rfl⟩

theorem mint_nft_fields (owner : Principal) (asset_id : String) (s : State) :
    (mint_nft owner asset_id s).1.nfts = s.nfts ∧
    (mint_nft owner asset_id s).1.nft_counter = s.nft_counter + 1 ∧
    (mint_nft owner asset_id s).2 = s.nft_counter + 1 ∧
    (mint_nft owner asset_id s).1.transactions = s.transactions ∧
    (mint_nft owner asset_id s).1.transaction_id_counter = s.transaction_id_counter ∧
    (mint_nft owner asset_id s).1.owner_tokens =
      insertKV s.owner_tokens owner
        (((lookup s.owner_tokens owner).getD []) ++ [s.nft_counter + 1]) := by
  by_cases h : asset_id = ""
  · simp [mint_nft, h]
  · simp [mint_nft, h]

theorem update_collection_details_fields (caller : Principal)
    (args : UpdateCollectionDetailsArgs) (s : State) :
    (update_collection_details caller args s).1.nfts = s.nfts ∧
    (update_collection_details caller args s).1.owner_tokens = s.owner_tokens ∧
    (update_collection_details caller args s).1.nft_counter = s.nft_counter ∧
    (update_collection_details caller args s).1.transactions = s.transactions ∧
    (update_collection_details caller args s).1.transaction_id_counter =
      s.transaction_id_counter := by
  by_cases h1 : ¬ is_admin s caller
  · simp [update_collection_details, h1]
  · by_cases h2 : args.max_supply.isSome ∧ s.nfts.length > 0
    · simp [update_collection_details, h1, h2]
    · simp [update_collection_details, h1, h2]

theorem update_mint_schedule_fields (caller : Principal) (args : UpdateMintScheduleArgs)
    (s : State) :
    (update_mint_schedule caller args s).1.nfts = s.nfts ∧
    (update_mint_schedule caller args s).1.owner_tokens = s.owner_tokens ∧
    (update_mint_schedule caller args s).1.nft_counter = s.nft_counter ∧
    (update_mint_schedule caller args s).1.transactions = s.transactions ∧
    (update_mint_schedule caller args s).1.transaction_id_counter =
      s.transaction_id_counter := by
  by_cases h1 : ¬ is_admin s caller
  · simp [update_mint_schedule, h1]
  · by_cases h2 : args.name = ""
    · simp [update_mint_schedule, h1, h2]
    · by_cases h3 : bothBoundsInvalid args
      · simp [update_mint_schedule, h1, h2, h3]
      · simp [update_mint_schedule, h1, h2, h3]

theorem remove_mint_schedule_fields (caller : Principal) (name : String) (s : State) :
    (remove_mint_schedule caller name s).1.nfts = s.nfts ∧
    (remove_mint_schedule caller name s).1.owner_tokens = s.owner_tokens ∧
    (remove_mint_schedule caller name s).1.nft_counter = s.nft_counter ∧
    (remove_mint_schedule caller name s).1.transactions = s.transactions ∧
    (remove_mint_schedule caller name s).1.transaction_id_counter =
      s.transaction_id_counter := by
  by_cases h1 : ¬ is_admin s caller
  · simp [remove_mint_schedule, h1]
  · by_cases h2 : name = ""
    · simp [remove_mint_schedule, h1, h2]
    · simp [remove_mint_schedule, h1, h2]

theorem approve_collection_fields (caller now : Nat) (args : ApprovalCollectionArgs)
    (s : State) :
    (icrc37_approve_collection caller now args s).1.nfts = s.nfts ∧
    (icrc37_approve_collection caller now args s).1.owner_tokens = s.owner_tokens ∧
    (icrc37_approve_collection caller now args s).1.nft_counter = s.nft_counter := by
  by_cases h : caller = args.spender.owner
  · simp [icrc37_approve_collection, h]
  · simp [icrc37_approve_collection, h, record_transaction]

/-! ## The transaction-log invariant (C7) -/

/-- The log is well-formed: the id counter equals the log length and the
recorded ids are exactly 0, 1, …, length-1 in order. -/
def txLogOK (s : State) : Prop :=
  s.transaction_id_counter = s.transactions.length ∧
  s.transactions.map (fun tx => tx.transaction_id) =
    List.range s.transactions.length

/-- One call only appends to the log and preserves its well-formedness. -/
def txExtends (s s' : State) : Prop :=
  (∃ tail, s'.transactions = s.transactions ++ tail) ∧ (txLogOK s → txLogOK s')

theorem txExtends_refl (s : State) : txExtends s s :=
  ⟨⟨[], by simp⟩, id⟩

theorem txExtends_trans {s1 s2 s3 : State} (h1 : txExtends s1 s2) (h2 : txExtends s2 s3) :
    txExtends s1 s3 := by
  obtain ⟨⟨t1, e1⟩, p1⟩ := h1
  obtain ⟨⟨t2, e2⟩, p2⟩ := h2
  exact ⟨⟨t1 ++ t2, by rw [e2, e1, List.append_assoc]⟩, fun h => p2 (p1 h)⟩

theorem txExtends_of_eq (s s' : State) (h1 : s'.transactions = s.transactions)
    (h2 : s'.transaction_id_counter = s.transaction_id_counter) : txExtends s s' := by
  refine ⟨⟨[], by rw [h1, List.append_nil]⟩, ?_⟩
  rintro ⟨a, b⟩
  exact ⟨by rw [h1, h2]; exact a, by rw [h1]; exact b⟩

theorem txExtends_record (s : State) (now : Nat) (kind : String) (token_id : Nat)
    (from_ to_ : Principal) (memo : Option (List Nat)) (operation : String) :
    txExtends s (record_transaction s now kind token_id from_ to_ memo operation).1 := by
  refine ⟨⟨_, rfl⟩, ?_⟩
  rintro ⟨hc, hm⟩
  constructor
  · simp [record_transaction, hc]
  · simp only [record_transaction, List.map_append, hm, List.length_append,
      List.map_cons, List.map_nil, List.length_cons, List.length_nil]
    rw [hc]
    have : List.range (s.transactions.length + (0 + 1)) =
        List.range s.transactions.length ++ [s.transactions.length] := by
      simpa using List.range_succ (n := s.transactions.length)
    rw [this]

theorem txExtends_transferOne (caller now : Nat) (arg : TransferArgs) (s : State) :
    txExtends s (icrc7_transferOne caller now arg s).1 := by
  cases hl : lookup s.nfts arg.token_id with
  | none =>
    simp only [icrc7_transferOne, hl]
    exact txExtends_refl s
  | some nft =>
    by_cases ho : nft.owner ≠ caller
    · simp only [icrc7_transferOne, hl, if_pos ho]
      exact txExtends_refl s
    · simp only [icrc7_transferOne, hl, if_neg ho]
      exact txExtends_trans (txExtends_of_eq s _ rfl rfl)
        (txExtends_record _ now "transfer" arg.token_id caller arg.to_.owner arg.memo
          "standard_transfer")

theorem txExtends_transfer (caller now : Nat) (args : List TransferArgs) (s : State) :
    txExtends s (icrc7_transfer caller now args s).1 := by
  induction args generalizing s with
  | nil => exact txExtends_refl s
  | cons a rest ih =>
    exact txExtends_trans (txExtends_transferOne caller now a s) (ih _)

theorem txExtends_approve_tokensOne (caller now : Nat) (arg : ApprovalArgs) (s : State) :
    txExtends s (icrc37_approve_tokensOne caller now arg s).1 := by
  by_cases hl : (lookup s.nfts arg.token_id).isNone
  · simp only [icrc37_approve_tokensOne, if_pos hl]
    exact txExtends_refl s
  · by_cases ho : ((lookup s.nfts arg.token_id).map (fun nft => nft.owner)).getD
        anonymousPrincipal ≠ caller
    · simp only [icrc37_approve_tokensOne, if_neg hl, if_pos ho]
      exact txExtends_refl s
    · simp only [icrc37_approve_tokensOne, if_neg hl, if_neg ho]
      exact txExtends_trans (txExtends_of_eq s _ rfl rfl)
        (txExtends_record _ now "approve" arg.token_id caller arg.spender.owner arg.memo
          "token_approval")

theorem txExtends_approve_tokens (caller now : Nat) (args : List ApprovalArgs) (s : State) :
    txExtends s (icrc37_approve_tokens caller now args s).1 := by
  induction args generalizing s with
  | nil => exact txExtends_refl s
  | cons a rest ih =>
    exact txExtends_trans (txExtends_approve_tokensOne caller now a s) (ih _)

theorem txExtends_approve_collection (caller now : Nat) (args : ApprovalCollectionArgs)
    (s : State) :
    txExtends s (icrc37_approve_collection caller now args s).1 := by
  by_cases h : caller = args.spender.owner
  · simp only [icrc37_approve_collection, if_pos h]
    exact txExtends_refl s
  · simp only [icrc37_approve_collection, if_neg h]
    exact txExtends_trans (txExtends_of_eq s _ rfl rfl)
      (txExtends_record _ now "approve" 0 caller args.spender.owner args.memo
        "collection_approval")

theorem txExtends_transfer_fromOne (caller now : Nat) (arg : TransferFromArgs) (s : State) :
    txExtends s (icrc37_transfer_fromOne caller now arg s).1 := by
  cases hl : lookup s.nfts arg.token_id with
  | none =>
    simp only [icrc37_transfer_fromOne, hl]
    exact txExtends_refl s
  | some nft =>
    by_cases ho : nft.owner ≠ arg.from_.owner
    · simp only [icrc37_transfer_fromOne, hl, if_pos ho]
      exact txExtends_refl s
    · by_cases ha : ¬ icrc37_is_approved s now { owner := caller, subaccount := none }
          { owner := arg.from_.owner, subaccount := none } arg.token_id
      · simp only [icrc37_transfer_fromOne, hl, if_neg ho, if_pos ha]
        exact txExtends_refl s
      · simp only [icrc37_transfer_fromOne, hl, if_neg ho, if_neg ha]
        exact txExtends_trans (txExtends_of_eq s _ rfl rfl)
          (txExtends_record _ now "transfer" arg.token_id arg.from_.owner arg.to_.owner
            arg.memo "transfer_from")

theorem txExtends_transfer_from (caller now : Nat) (args : List TransferFromArgs)
    (s : State) :
    txExtends s (icrc37_transfer_from caller now args s).1 := by
  induction args generalizing s with
  | nil => exact txExtends_refl s
  | cons a rest ih =>
    exact txExtends_trans (txExtends_transfer_fromOne caller now a s) (ih _)

theorem txExtends_mint (self_canister caller now : Nat) (args : MintArgs) (s : State) :
    txExtends s (mint self_canister caller now args s).1 := by
  cases hc : mint_checks caller now s with
  | error e =>
    simp only [mint, hc]
    exact txExtends_refl s
  | ok u =>
    simp only [mint, hc]
    have hf := mint_nft_fields caller args.asset_id s
    exact txExtends_trans (txExtends_of_eq s _ hf.2.2.2.1 hf.2.2.2.2.1)
      (txExtends_record _ now "mint" _ self_canister caller none _)

theorem txExtends_mint_loop (caller : Nat) (uuid : String) (q : Nat) (s : State) :
    txExtends s (mint_loop caller uuid q s).1 := by
  induction q generalizing s with
  | zero => exact txExtends_refl s
  | succ n ih =>
    have hf := mint_nft_fields caller ("asset-" ++ uuid) s
    exact txExtends_trans (txExtends_of_eq s _ hf.2.2.2.1 hf.2.2.2.2.1) (ih _)

theorem txExtends_mint_bundle (self_canister caller now : Nat) (uuid : String)
    (args : MintBundleArgs) (s : State) :
    txExtends s (mint_bundle self_canister caller now uuid args s).1 := by
  by_cases hq : args.quantity = 0
  · simp only [mint_bundle, hq, if_pos rfl]
    exact txExtends_refl s
  · cases hc : mint_bundle_checks caller now args.quantity s with
    | error e =>
      simp only [mint_bundle, if_neg hq, hc]
      exact txExtends_refl s
    | ok u =>
      simp only [mint_bundle, if_neg hq, hc]
      exact txExtends_trans (txExtends_mint_loop caller uuid args.quantity s)
        (txExtends_record _ now "mint_bundle" _ self_canister caller none _)

theorem txExtends_step (s : State) (op : Op) : txExtends s (step s op) := by
  cases op with
  | transfer caller now args => exact txExtends_transfer caller now args s
  | approveTokens caller now args => exact txExtends_approve_tokens caller now args s
  | approveCollection caller now args => exact txExtends_approve_collection caller now args s
  | transferFrom caller now args => exact txExtends_transfer_from caller now args s
  | mintOp self_canister caller now args => exact txExtends_mint self_canister caller now args s
  | mintBundleOp self_canister caller now uuid args =>
    exact txExtends_mint_bundle self_canister caller now uuid args s
  | updateCollection caller args =>
    have hf := update_collection_details_fields caller args s
    exact txExtends_of_eq s _ hf.2.2.2.1 hf.2.2.2.2
  | updateSchedule caller args =>
    have hf := update_mint_schedule_fields caller args s
    exact txExtends_of_eq s _ hf.2.2.2.1 hf.2.2.2.2
  | removeSchedule caller name =>
    have hf := remove_mint_schedule_fields caller name s
    exact txExtends_of_eq s _ hf.2.2.2.1 hf.2.2.2.2

theorem txLogOK_init (deployer : Principal) : txLogOK (initState deployer) := ⟨rfl, rfl⟩

theorem txLogOK_run (deployer : Principal) (ops : List Op) :
    txLogOK (run (initState deployer) ops) := by
  have main : ∀ (l : List Op) (s : State), txLogOK s → txLogOK (run s l) := by
    intro l
    induction l with
    | nil => exact fun s h => h
    | cons op rest ih => exact fun s h => ih _ ((txExtends_step s op).2 h)
  exact main ops _ (txLogOK_init deployer)

/-- C7: in every state reachable from installation by any sequence of
operations, the transaction log carries exactly the ids 0, 1, …, len-1 in
order (gapless, strictly increasing, starting at 0, independent of the
operation kinds), and every further operation only appends to the log,
never mutating or reordering existing records. -/
theorem C7_transaction_id_monotonicity (deployer : Principal) (ops : List Op) :
    ((run (initState deployer) ops).transactions.map (fun tx => tx.transaction_id) =
      List.range (run (initState deployer) ops).transactions.length) ∧
    (∀ op, ∃ tail, (step (run (initState deployer) ops) op).transactions =
      (run (initState deployer) ops).transactions ++ tail) :=
  ⟨(txLogOK_run deployer ops).2, fun op => (txExtends_step _ op).1⟩

/-! ## The ownership invariant (C1, C3)

From installation onwards the `NFTS` map stays empty: `mint_nft` records
ownership only in `TOKENS` and the owner-tokens index, and the transfer
paths bail out with `NotFound` before touching anything.  Consequently
every minted id (1 up to the counter) lives in exactly one principal's
owner-tokens entry, exactly once. -/

def InvC1 (s : State) : Prop :=
  s.nfts = [] ∧
  (∀ p t, t ∈ ownerList s p → 1 ≤ t ∧ t ≤ s.nft_counter) ∧
  (∀ t, 1 ≤ t → t ≤ s.nft_counter → ∃ p, t ∈ ownerList s p) ∧
  (∀ p q t, t ∈ ownerList s p → t ∈ ownerList s q → p = q) ∧
  (∀ p, (ownerList s p).Nodup)

theorem InvC1_congr (s s' : State) (hn : s'.nfts = s.nfts)
    (ho : s'.owner_tokens = s.owner_tokens) (hc : s'.nft_counter = s.nft_counter)
    (h : InvC1 s) : InvC1 s' := by
  obtain ⟨h1, h2, h3, h4, h5⟩ := h
  have hol : ∀ p, ownerList s' p = ownerList s p := fun p => by
    rw [ownerList, ho, ownerList]
  refine ⟨?_, ?_, ?_, ?_, ?_⟩
  · rw [hn]; exact h1
  · intro p t ht
    rw [hol p] at ht
    rw [hc]
    exact h2 p t ht
  · intro t ht1 ht2
    rw [hc] at ht2
    obtain ⟨p, hp⟩ := h3 t ht1 ht2
    exact ⟨p, by rw [hol p]; exact hp⟩
  · intro p q t hp hq
    rw [hol p] at hp
    rw [hol q] at hq
    exact h4 p q t hp hq
  · intro p
    rw [hol p]
    exact h5 p

theorem transferOne_nil (caller now : Nat) (arg : TransferArgs) (s : State)
    (h : s.nfts = []) :
    icrc7_transferOne caller now arg s = (s, .error .NotFound) := by
  simp [icrc7_transferOne, h]

theorem transfer_nil (caller now : Nat) (args : List TransferArgs) (s : State)
    (h : s.nfts = []) : (icrc7_transfer caller now args s).1 = s := by
  induction args with
  | nil => rfl
  | cons a rest ih =>
    show (icrc7_transfer caller now rest (icrc7_transferOne caller now a s).1).1 = s
    rw [transferOne_nil caller now a s h]
    exact ih

theorem approve_tokensOne_nil (caller now : Nat) (arg : ApprovalArgs) (s : State)
    (h : s.nfts = []) :
    icrc37_approve_tokensOne caller now arg s = (s, .error .NotFound) := by
  simp [icrc37_approve_tokensOne, h]

theorem approve_tokens_nil (caller now : Nat) (args : List ApprovalArgs) (s : State)
    (h : s.nfts = []) : (icrc37_approve_tokens caller now args s).1 = s := by
  induction args with
  | nil => rfl
  | cons a rest ih =>
    show (icrc37_approve_tokens caller now rest
      (icrc37_approve_tokensOne caller now a s).1).1 = s
    rw [approve_tokensOne_nil caller now a s h]
    exact ih

theorem transfer_fromOne_nil (caller now : Nat) (arg : TransferFromArgs) (s : State)
    (h : s.nfts = []) :
    icrc37_transfer_fromOne caller now arg s = (s, .error .NotFound) := by
  simp [icrc37_transfer_fromOne, h]

theorem transfer_from_nil (caller now : Nat) (args : List TransferFromArgs) (s : State)
    (h : s.nfts = []) : (icrc37_transfer_from caller now args s).1 = s := by
  induction args with
  | nil => rfl
  | cons a rest ih =>
    show (icrc37_transfer_from caller now rest
      (icrc37_transfer_fromOne caller now a s).1).1 = s
    rw [transfer_fromOne_nil caller now a s h]
    exact ih

theorem mint_nft_ownerList_self (owner : Principal) (asset_id : String) (s : State) :
    ownerList (mint_nft owner asset_id s).1 owner =
      ownerList s owner ++ [s.nft_counter + 1] := by
  rw [ownerList, (mint_nft_fields owner asset_id s).2.2.2.2.2, lookup_insertKV, if_pos rfl]
  rfl

theorem mint_nft_ownerList_other (owner : Principal) (asset_id : String) (s : State)
    (p : Principal) (hp : p ≠ owner) :
    ownerList (mint_nft owner asset_id s).1 p = ownerList s p := by
  rw [ownerList, (mint_nft_fields owner asset_id s).2.2.2.2.2, lookup_insertKV, if_neg hp]
  rfl

theorem InvC1_mint_nft (owner : Principal) (asset_id : String) (s : State)
    (h : InvC1 s) : InvC1 (mint_nft owner asset_id s).1 := by
  obtain ⟨h1, h2, h3, h4, h5⟩ := h
  have hf := mint_nft_fields owner asset_id s
  have hself := mint_nft_ownerList_self owner asset_id s
  have hother := mint_nft_ownerList_other owner asset_id s
  have hfresh : ∀ p t, t ∈ ownerList s p → t ≠ s.nft_counter + 1 := by
    intro p t ht
    have := h2 p t ht
    omega
  have hmem : ∀ r t, t ∈ ownerList (mint_nft owner asset_id s).1 r →
      t ∈ ownerList s r ∨ (r = owner ∧ t = s.nft_counter + 1) := by
    intro r t hr
    by_cases hro : r = owner
    · subst hro
      rw [hself] at hr
      rcases List.mem_append.mp hr with h' | h'
      · exact Or.inl h'
      · exact Or.inr ⟨rfl, List.mem_singleton.mp h'⟩
    · rw [hother r hro] at hr
      exact Or.inl hr
  refine ⟨by rw [hf.1]; exact h1, ?_, ?_, ?_, ?_⟩
  · intro p t ht
    rw [hf.2.1]
    rcases hmem p t ht with h' | ⟨_, rfl⟩
    · have := h2 p t h'
      omega
    · omega
  · intro t ht1 ht2
    rw [hf.2.1] at ht2
    by_cases he : t = s.nft_counter + 1
    · refine ⟨owner, ?_⟩
      rw [hself, he]
      exact List.mem_append.mpr (Or.inr (List.mem_singleton_self _))
    · have ht2' : t ≤ s.nft_counter := by omega
      obtain ⟨p, hp⟩ := h3 t ht1 ht2'
      by_cases hpo : p = owner
      · subst hpo
        exact ⟨p, by rw [hself]; exact List.mem_append.mpr (Or.inl hp)⟩
      · exact ⟨p, by rw [hother p hpo]; exact hp⟩
  · intro p q t hp hq
    rcases hmem p t hp with hp' | ⟨hpo, hte⟩
    · rcases hmem q t hq with hq' | ⟨_, hte'⟩
      · exact h4 p q t hp' hq'
      · exact absurd hte' (hfresh p t hp')
    · rcases hmem q t hq with hq' | ⟨hqo, _⟩
      · exact absurd hte (hfresh q t hq')
      · rw [hpo, hqo]
  · intro p
    by_cases hp : p = owner
    · subst hp
      rw [hself]
      refine List.Nodup.append (h5 p) (List.nodup_singleton _) ?_
      intro x hx hy
      exact hfresh p x hx (List.mem_singleton.mp hy)
    · rw [hother p hp]
      exact h5 p

theorem InvC1_mint (self_canister caller now : Nat) (args : MintArgs) (s : State)
    (h : InvC1 s) : InvC1 (mint self_canister caller now args s).1 := by
  cases hc : mint_checks caller now s with
  | error e =>
    simp only [mint, hc]
    exact h
  | ok u =>
    simp only [mint, hc]
    exact InvC1_congr _ _ rfl rfl rfl (InvC1_mint_nft caller args.asset_id s h)

theorem InvC1_mint_loop (caller : Nat) (uuid : String) (q : Nat) (s : State)
    (h : InvC1 s) : InvC1 (mint_loop caller uuid q s).1 := by
  induction q generalizing s with
  | zero => exact h
  | succ n ih => exact ih _ (InvC1_mint_nft caller ("asset-" ++ uuid) s h)

theorem InvC1_mint_bundle (self_canister caller now : Nat) (uuid : String)
    (args : MintBundleArgs) (s : State) (h : InvC1 s) :
    InvC1 (mint_bundle self_canister caller now uuid args s).1 := by
  by_cases hq : args.quantity = 0
  · simp only [mint_bundle, hq, if_pos rfl]
    exact h
  · cases hc : mint_bundle_checks caller now args.quantity s with
    | error e =>
      simp only [mint_bundle, if_neg hq, hc]
      exact h
    | ok u =>
      simp only [mint_bundle, if_neg hq, hc]
      exact InvC1_congr _ _ rfl rfl rfl (InvC1_mint_loop caller uuid args.quantity s h)

theorem InvC1_step (s : State) (op : Op) (h : InvC1 s) : InvC1 (step s op) := by
  cases op with
  | transfer caller now args =>
    show InvC1 (icrc7_transfer caller now args s).1
    rw [transfer_nil caller now args s h.1]
    exact h
  | approveTokens caller now args =>
    show InvC1 (icrc37_approve_tokens caller now args s).1
    rw [approve_tokens_nil caller now args s h.1]
    exact h
  | approveCollection caller now args =>
    have hf := approve_collection_fields caller now args s
    exact InvC1_congr s _ hf.1 hf.2.1 hf.2.2 h
  | transferFrom caller now args =>
    show InvC1 (icrc37_transfer_from caller now args s).1
    rw [transfer_from_nil caller now args s h.1]
    exact h
  | mintOp self_canister caller now args => exact InvC1_mint self_canister caller now args s h
  | mintBundleOp self_canister caller now uuid args =>
    exact InvC1_mint_bundle self_canister caller now uuid args s h
  | updateCollection caller args =>
    have hf := update_collection_details_fields caller args s
    exact InvC1_congr s _ hf.1 hf.2.1 hf.2.2.1 h
  | updateSchedule caller args =>
    have hf := update_mint_schedule_fields caller args s
    exact InvC1_congr s _ hf.1 hf.2.1 hf.2.2.1 h
  | removeSchedule caller name =>
    have hf := remove_mint_schedule_fields caller name s
    exact InvC1_congr s _ hf.1 hf.2.1 hf.2.2.1 h

theorem InvC1_init (deployer : Principal) : InvC1 (initState deployer) := by
  refine ⟨rfl, ?_, ?_, ?_, ?_⟩
  · intro p t ht
    exact absurd ht (List.not_mem_nil t)
  · intro t ht1 ht2
    exfalso
    have hz : (initState deployer).nft_counter = 0 := rfl
    rw [hz] at ht2
    omega
  · intro p q t hp _
    exact absurd hp (List.not_mem_nil t)
  · intro p
    exact List.nodup_nil

theorem InvC1_run (deployer : Principal) (ops : List Op) :
    InvC1 (run (initState deployer) ops) := by
  have main : ∀ (l : List Op) (s : State), InvC1 s → InvC1 (run s l) := by
    intro l
    induction l with
    | nil => exact fun s h => h
    | cons op rest ih => exact fun s h => ih _ (InvC1_step s op h)
  exact main ops _ (InvC1_init deployer)

/-! ## C1: ownership exclusivity -/

/-- C1 (amended): in every reachable state, every minted token id t (from
1 up to the mint counter) is held in exactly one principal's owner-tokens
entry, exactly once; however `icrc7_owner_of` returns `None` for every
such t — `mint_nft` never creates an `NFT` record, so the owner-tokens
index does not agree with `icrc7_owner_of` as the claim demands. -/
theorem C1_ownership_exclusivity (deployer : Principal) (ops : List Op) (t : Nat)
    (h1 : 1 ≤ t) (h2 : t ≤ (run (initState deployer) ops).nft_counter) :
    (∃ p, t ∈ ownerList (run (initState deployer) ops) p ∧
      (ownerList (run (initState deployer) ops) p).count t = 1 ∧
      ∀ q, t ∈ ownerList (run (initState deployer) ops) q → q = p) ∧
    icrc7_owner_of (run (initState deployer) ops) [t] = [none] := by
  obtain ⟨hnil, hb, hcomp, huniq, hnodup⟩ := InvC1_run deployer ops
  obtain ⟨p, hp⟩ := hcomp t h1 h2
  refine ⟨⟨p, hp, List.count_eq_one_of_mem (hnodup p) hp,
    fun q hq => huniq q p t hq hp⟩, ?_⟩
  simp [icrc7_owner_of, hnil]

def exOp1 : Op := .updateSchedule 0
  { name := "Standard", bundle_prices := [{ quantity := 1, price := 10 }],
    start_time := none, end_time := none, active := some true, whitelist_only := none }

def exOp2 : Op := .updateCollection 0
  { name := none, symbol := none, description := none, max_supply := none, base_url := none,
    logo := none, pricing_enabled := some true, mint_schedules := none }

def exMintOp : Op := .mintOp 99 0 5 { asset_id := "a" }

def exOps : List Op := [exOp1, exOp2, exMintOp]

/-- C1 counterexample: after enabling pricing, activating the Standard
schedule and minting once, principal 0's owner-tokens entry holds token 1
but `icrc7_owner_of` reports no owner for it — so the owner-index
principal does not equal the `icrc7_owner_of` answer, refuting the claim
as stated. -/
theorem C1_counterexample :
    ownerList (run (initState 0) exOps) 0 = [1] ∧
    icrc7_owner_of (run (initState 0) exOps) [1] = [none] ∧
    icrc7_owner_of (run (initState 0) exOps) [1] ≠
      [some { owner := 0, subaccount := none }] :=
  ⟨rfl, rfl, by decide⟩

/-- C1 witness: the amended exclusivity theorem applied to the concrete
three-operation run, for the minted token 1. -/
theorem C1_witness :
    (1 : Nat) ≤ 1 ∧ 1 ≤ (run (initState 0) exOps).nft_counter ∧
    icrc7_owner_of (run (initState 0) exOps) [1] = [none] :=
  ⟨le_refl 1, by decide,
    (C1_ownership_exclusivity 0 exOps 1 (le_refl 1) (by decide)).2⟩

/-! ## C3: minting creates no NFT record -/

theorem balance_of_ownerList (s : State) (p : Principal) :
    icrc7_balance_of s [{ owner := p, subaccount := none }] = [(ownerList s p).length] := by
  simp only [icrc7_balance_of, ownerList, List.map]
  cases h : lookup s.owner_tokens p with
  | none => simp [h]
  | some l => simp [h]

theorem mint_ok_facts (self_canister caller now : Nat) (args : MintArgs) (s : State)
    (tid : Nat) (h : (mint self_canister caller now args s).2 = .ok tid) :
    tid = s.nft_counter + 1 ∧
    (mint self_canister caller now args s).1.nfts = s.nfts ∧
    ownerList (mint self_canister caller now args s).1 caller =
      ownerList s caller ++ [tid] := by
  cases hc : mint_checks caller now s with
  | error e =>
    simp only [mint, hc] at h
    cases h
  | ok u =>
    simp only [mint, hc] at h ⊢
    have hf := mint_nft_fields caller args.asset_id s
    have htid : tid = s.nft_counter + 1 := by
      rw [← hf.2.2.1]
      exact (Except.ok.inj h).symm
    refine ⟨htid, hf.1, ?_⟩
    rw [htid]
    exact mint_nft_ownerList_self caller args.asset_id s

theorem mint_loop_fields (caller : Nat) (uuid : String) (q : Nat) (s : State) :
    (mint_loop caller uuid q s).1.nfts = s.nfts ∧
    ownerList (mint_loop caller uuid q s).1 caller =
      ownerList s caller ++ (mint_loop caller uuid q s).2 ∧
    (mint_loop caller uuid q s).2.length = q := by
  induction q generalizing s with
  | zero => exact ⟨rfl, by simp [mint_loop], rfl⟩
  | succ n ih =>
    obtain ⟨i1, i2, i3⟩ := ih (mint_nft caller ("asset-" ++ uuid) s).1
    have hf := mint_nft_fields caller ("asset-" ++ uuid) s
    refine ⟨?_, ?_, ?_⟩
    · show (mint_loop caller uuid n (mint_nft caller ("asset-" ++ uuid) s).1).1.nfts = s.nfts
      rw [i1, hf.1]
    · show ownerList (mint_loop caller uuid n (mint_nft caller ("asset-" ++ uuid) s).1).1
          caller = ownerList s caller ++
        ((mint_nft caller ("asset-" ++ uuid) s).2 ::
          (mint_loop caller uuid n (mint_nft caller ("asset-" ++ uuid) s).1).2)
      rw [i2, mint_nft_ownerList_self, hf.2.2.1]
      simp
    · show ((mint_nft caller ("asset-" ++ uuid) s).2 ::
        (mint_loop caller uuid n (mint_nft caller ("asset-" ++ uuid) s).1).2).length = n + 1
      simp [i3]

theorem mint_bundle_ok_facts (self_canister caller now : Nat) (uuid : String)
    (bargs : MintBundleArgs) (s : State) (tids : List Nat)
    (h : (mint_bundle self_canister caller now uuid bargs s).2 = .ok tids) :
    (mint_bundle self_canister caller now uuid bargs s).1.nfts = s.nfts ∧
    ownerList (mint_bundle self_canister caller now uuid bargs s).1 caller =
      ownerList s caller ++ tids ∧
    tids.length = bargs.quantity := by
  by_cases hq : bargs.quantity = 0
  · simp [mint_bundle, hq] at h
  · cases hc : mint_bundle_checks caller now bargs.quantity s with
    | error e => simp [mint_bundle, hq, hc] at h
    | ok u =>
      simp only [mint_bundle, if_neg hq, hc] at h ⊢
      have hl := mint_loop_fields caller uuid bargs.quantity s
      have htids : tids = (mint_loop caller uuid bargs.quantity s).2 :=
        (Except.ok.inj h).symm
      refine ⟨hl.1, ?_, ?_⟩
      · rw [htids]
        exact hl.2.1
      · rw [htids]
        exact hl.2.2

/-- C3: from any reachable state, a successful `mint` appends the new id
to the caller's owner-tokens entry (the balance grows by one) but leaves
the `NFTS` map untouched, so `icrc7_owner_of` and `get_nft` return `None`
for the new id and `icrc7_total_supply` is unchanged; a successful
`mint_bundle` likewise appends its `quantity` new ids to the caller's
entry without creating any NFT record. -/
theorem C3_mint_creates_no_record (deployer : Principal) (ops : List Op)
    (self_canister caller now : Nat) (args : MintArgs) (uuid : String)
    (bargs : MintBundleArgs) :
    (∀ tid,
      (mint self_canister caller now args (run (initState deployer) ops)).2 = .ok tid →
      ownerList (mint self_canister caller now args (run (initState deployer) ops)).1
          caller = ownerList (run (initState deployer) ops) caller ++ [tid] ∧
      icrc7_balance_of (mint self_canister caller now args (run (initState deployer) ops)).1
          [{ owner := caller, subaccount := none }] =
        [(ownerList (run (initState deployer) ops) caller).length + 1] ∧
      icrc7_owner_of (mint self_canister caller now args (run (initState deployer) ops)).1
          [tid] = [none] ∧
      get_nft (mint self_canister caller now args (run (initState deployer) ops)).1 tid =
        none ∧
      icrc7_total_supply
          (mint self_canister caller now args (run (initState deployer) ops)).1 =
        icrc7_total_supply (run (initState deployer) ops)) ∧
    (∀ tids,
      (mint_bundle self_canister caller now uuid bargs
        (run (initState deployer) ops)).2 = .ok tids →
      ownerList (mint_bundle self_canister caller now uuid bargs
          (run (initState deployer) ops)).1 caller =
        ownerList (run (initState deployer) ops) caller ++ tids ∧
      tids.length = bargs.quantity ∧
      icrc7_balance_of (mint_bundle self_canister caller now uuid bargs
          (run (initState deployer) ops)).1 [{ owner := caller, subaccount := none }] =
        [(ownerList (run (initState deployer) ops) caller).length + bargs.quantity] ∧
      (∀ t ∈ tids, icrc7_owner_of (mint_bundle self_canister caller now uuid bargs
          (run (initState deployer) ops)).1 [t] = [none]) ∧
      icrc7_total_supply (mint_bundle self_canister caller now uuid bargs
          (run (initState deployer) ops)).1 =
        icrc7_total_supply (run (initState deployer) ops)) := by
  have hnil := (InvC1_run deployer ops).1
  constructor
  · intro tid h
    obtain ⟨htid, hnfts, hol⟩ :=
      mint_ok_facts self_canister caller now args _ tid h
    refine ⟨hol, ?_, ?_, ?_, ?_⟩
    · rw [balance_of_ownerList, hol]
      simp
    · simp [icrc7_owner_of, hnfts, hnil]
    · simp [get_nft, hnfts, hnil]
    · simp [icrc7_total_supply, hnfts]
  · intro tids h
    obtain ⟨hnfts, hol, hlen⟩ :=
      mint_bundle_ok_facts self_canister caller now uuid bargs _ tids h
    refine ⟨hol, hlen, ?_, ?_, ?_⟩
    · rw [balance_of_ownerList, hol]
      simp [hlen]
    · intro t ht
      simp [icrc7_owner_of, hnfts, hnil]
    · simp [icrc7_total_supply, hnfts]

def exOpsSetup : List Op := [exOp1, exOp2]

/-- C3 witness: on the concrete prepared state, `mint` yields token 1 in
the caller's index with no NFT record, and `mint_bundle` of 2 yields
tokens [1, 2]. -/
theorem C3_witness :
    (mint 99 0 5 { asset_id := "a" } (run (initState 0) exOpsSetup)).2 = .ok 1 ∧
    ownerList (mint 99 0 5 { asset_id := "a" } (run (initState 0) exOpsSetup)).1 0 =
      ownerList (run (initState 0) exOpsSetup) 0 ++ [1] ∧
    icrc7_owner_of (mint 99 0 5 { asset_id := "a" } (run (initState 0) exOpsSetup)).1 [1] =
      [none] ∧
    (mint_bundle 99 0 5 "u" { quantity := 2, asset_ids := [] }
      (run (initState 0) exOpsSetup)).2 = .ok [1, 2] := by
  have h := (C3_mint_creates_no_record 0 exOpsSetup 99 0 5 { asset_id := "a" } "u"
    { quantity := 2, asset_ids := [] }).1 1 rfl
  exact ⟨rfl, h.1, h.2.2.1, rfl⟩

end ICRC37Plus
